import Mathlib

/-!
CleanPlayerV2, a battleship contest player.

A shallow embedding of `src/contestV2/CleanPlayerV2.cpp`.  The player object
becomes a record, every member function becomes a function on that record,
`int` is `Int`, the C operator `%` is `Int.tmod`, a two-dimensional array is
a function of its two indices, `rand()` reads the next element of a list of
draws, and the two unbounded `while(true)` loops are given fuel (`search`)
or run on a finite list of draws (`placeShip`).
-/

/-- Modelled from the spec: the `char` constants of the header that is not
part of the sources, as far as this source file names them.  `WATER`, `SHIP`,
`HIT`, `KILL` and `MISS` are the five cell states `Unknown | ShipPresent | Hit
| Kill | Miss` of the data model; `HIT`, `KILL` and `MISS` are also the types
of the shot-result messages, `SHOT`, `PLACE_SHIP` and `OPPONENT_SHOT` the
other message types. -/
inductive CharCode
  | WATER
  | SHIP
  | HIT
  | KILL
  | MISS
  | SHOT
  | PLACE_SHIP
  | OPPONENT_SHOT
  deriving DecidableEq

/-- Modelled from the spec: the `Direction` enumeration of the missing
header.  `None` is what `getMove` passes, `Horizontal` and `Vertical` are the
two orientations a placement samples from. -/
inductive Direction
  | None
  | Horizontal
  | Vertical
  deriving DecidableEq

/-- Modelled from the spec: the conversion `Direction(n)` of the missing
enumeration; the two values `rand()%2 + 1` can take are the two
orientations. -/
def Direction.ofInt (n : Int) : Direction :=
  if n = 1 then Direction.Horizontal
  else if n = 2 then Direction.Vertical
  else Direction.None

/-- Modelled from the spec: the `Message` class of the missing header, with
the six constructor arguments in the order the source passes them. -/
structure Message where
  messageType : CharCode
  row : Int
  col : Int
  str : String
  dir : Direction
  length : Int

/-- A two-dimensional array `a[row][col]`, read as a function of its indices. -/
abbrev Grid (α : Type) := Int → Int → α

/-- The assignment `a[row][col] = v`. -/
def Grid.set {α : Type} (g : Grid α) (row col : Int) (v : α) : Grid α :=
  fun r c => if r = row ∧ c = col then v else g r c

/-- The counted loop `for (int i = lo; i < hi; i++) body(i)`: the first
argument is the number of iterations still to run, the second the current
value of `i`. -/
def forLoop {σ : Type} (body : Int → σ → σ) : Nat → Int → σ → σ
  | 0, _, s => s
  | n + 1, i, s => forLoop body n (i + 1) (body i s)

/-- The data members of the class that the source file uses.  The class
declaration is in a header that is not part of the sources. -/
structure CleanPlayerV2 where
  boardSize : Int
  board : Grid CharCode
  shipBoard : Grid CharCode
  opponentShots : Grid Int
  scanRow : Int
  scanCol : Int
  numShipsPlaced : Int
  shipMark : Char

namespace CleanPlayerV2

/-- `initializeBoard(board)`: two nested loops over `0 .. boardSize-1`
writing `WATER`. -/
def initializeBoard (p : CleanPlayerV2) (board : Grid CharCode) : Grid CharCode :=
  forLoop (fun row b =>
      forLoop (fun col b1 => Grid.set b1 row col CharCode.WATER) p.boardSize.toNat 0 b)
    p.boardSize.toNat 0 board

/-- The constructor `CleanPlayerV2(boardSize)`, run on the object's storage
`mem`: the base class stores `boardSize`, both boards are initialised and the
`opponentShots` counters are set to 0.  The other members keep what the
storage held. -/
def construct (boardSize : Int) (mem : CleanPlayerV2) : CleanPlayerV2 :=
  let p0 := { mem with boardSize := boardSize }
  let p1 := { p0 with board := initializeBoard p0 p0.board }
  let p2 := { p1 with shipBoard := initializeBoard p1 p1.shipBoard }
  let shots : Grid Int :=
    forLoop (fun row g =>
        forLoop (fun col g1 => Grid.set g1 row col 0) boardSize.toNat 0 g)
      boardSize.toNat 0 p2.opponentShots
  { p2 with opponentShots := shots }

/-- `isOnBoard(row, col)`. -/
def isOnBoard (p : CleanPlayerV2) (row col : Int) : Bool :=
  if row ≥ 0 ∧ row < p.boardSize ∧ col ≥ 0 ∧ col < p.boardSize then true else false

/-- The `while(true)` loop of `search`, entered with the current `range`.
The result is `(found, row, col)`: the returned flag and the two reference
parameters, which are only assigned on success.  `none` means the fuel ran
out with the loop still running. -/
def searchLoop (p : CleanPlayerV2) (row col rowDelta colDelta : Int) :
    Nat → Int → Option (Bool × Int × Int)
  | 0, _ => none
  | fuel + 1, range =>
    let r := row + rowDelta * range
    let c := col + colDelta * range
    if ! p.isOnBoard r c then some (false, row, col)
    else if p.board r c = CharCode.WATER then some (true, r, c)
    else if p.board r c = CharCode.MISS ∨ p.board r c = CharCode.KILL then some (false, row, col)
    else searchLoop p row col rowDelta colDelta fuel (range + 1)

/-- `search(row, col, rowDelta, colDelta)`: the loop started at `range = 1`. -/
def search (p : CleanPlayerV2) (fuel : Nat) (row col rowDelta colDelta : Int) :
    Option (Bool × Int × Int) :=
  searchLoop p row col rowDelta colDelta fuel 1

/-- `getFollowUpShot(row, col)`: the value of the two reference parameters
on return. -/
def getFollowUpShot (p : CleanPlayerV2) (fuel : Nat) (row col : Int) : Option (Int × Int) :=
  match p.search fuel row col 1 0 with            -- Down
  | none => none
  | some (true, r, c) => some (r, c)
  | some (false, row1, col1) =>
    match p.search fuel row1 col1 0 1 with        -- Right
    | none => none
    | some (true, r, c) => some (r, c)
    | some (false, row2, col2) =>
      match p.search fuel row2 col2 0 (-1) with   -- Left
      | none => none
      | some (true, r, c) => some (r, c)
      | some (false, row3, col3) =>
        match p.search fuel row3 col3 (-1) 0 with -- Up
        | none => none
        | some (_, r, c) => some (r, c)

/-- `scan(row, col)`.  The two reference parameters are never used in the
body, which works on the members `scanRow` and `scanCol`; `MIN_SHIP_SIZE` is
a constant of the missing header. -/
def scan (MIN_SHIP_SIZE : Int) (p : CleanPlayerV2) : CleanPlayerV2 :=
  let p1 := { p with scanCol := p.scanCol + MIN_SHIP_SIZE }
  if p1.scanCol ≥ p1.boardSize then
    let p2 := { p1 with scanCol := Int.tmod p1.scanCol p1.boardSize }
    let p3 :=
      if Int.tmod p2.boardSize MIN_SHIP_SIZE = 0 then
        if p2.scanCol + 1 = MIN_SHIP_SIZE then { p2 with scanCol := 0 }
        else { p2 with scanCol := p2.scanCol + 1 }
      else p2
    let p4 := { p3 with scanRow := p3.scanRow + 1 }
    if p4.scanRow ≥ p4.boardSize then { p4 with scanRow := 0 } else p4
  else p1

/-- `getMove()`: the returned message and the player afterwards. -/
def getMove (MIN_SHIP_SIZE : Int) (p : CleanPlayerV2) (fuel : Nat) :
    Option (Message × CleanPlayerV2) :=
  let shotRow := p.scanRow
  let shotCol := p.scanCol
  if p.board p.scanRow p.scanCol = CharCode.WATER then
    some (Message.mk CharCode.SHOT shotRow shotCol "Bang" Direction.None 1, p)
  else if p.board p.scanRow p.scanCol = CharCode.HIT then
    match p.getFollowUpShot fuel shotRow shotCol with
    | none => none
    | some (r, c) => some (Message.mk CharCode.SHOT r c "Bang" Direction.None 1, p)
  else
    let p1 := scan MIN_SHIP_SIZE p
    some (Message.mk CharCode.SHOT p1.scanRow p1.scanCol "Bang" Direction.None 1, p1)

/-- `chooseValues(row, col, length, dir)` on three successive values of
`rand()`: the values of `row`, `col` and `dir` on return. -/
def chooseValues (p : CleanPlayerV2) (length : Int) (rand0 rand1 rand2 : Nat) :
    Int × Int × Direction :=
  let dir := Direction.ofInt (Int.tmod (rand0 : Int) 2 + 1)
  if dir = Direction.Horizontal then
    (Int.tmod (rand1 : Int) p.boardSize, Int.tmod (rand2 : Int) (p.boardSize + 1 - length), dir)
  else
    (Int.tmod (rand1 : Int) (p.boardSize + 1 - length), Int.tmod (rand2 : Int) p.boardSize, dir)

/-- One loop of `positionOk`, `for (i = lo; i < hi; i++) if (line[i] != WATER)
return false;` followed by `return true`. -/
def positionOkLoop (line : Int → CharCode) : Nat → Int → Bool
  | 0, _ => true
  | n + 1, i => if line i ≠ CharCode.WATER then false else positionOkLoop line n (i + 1)

/-- `positionOk(row, col, length, dir)`. -/
def positionOk (p : CleanPlayerV2) (row col length : Int) (dir : Direction) : Bool :=
  if dir = Direction.Horizontal then
    positionOkLoop (fun c => p.shipBoard row c) length.toNat col
  else
    positionOkLoop (fun r => p.shipBoard r col) length.toNat row

/-- `markShip(row, col, length, dir)`. -/
def markShip (p : CleanPlayerV2) (row col length : Int) (dir : Direction) : CleanPlayerV2 :=
  if dir = Direction.Horizontal then
    { p with shipBoard :=
        forLoop (fun c b => Grid.set b row c CharCode.SHIP) length.toNat col p.shipBoard }
  else
    { p with shipBoard :=
        forLoop (fun r b => Grid.set b r col CharCode.SHIP) length.toNat row p.shipBoard }

/-- Modelled from the spec: what `placeShip` hands back.  `return false` is
the `InvalidShipLength` condition (the conversion of `false` to a `Message`
is in the missing header); otherwise the `PLACE_SHIP` response. -/
inductive PlaceResult
  | invalidShipLength
  | placed (response : Message)

/-- The `while(true)` loop of `placeShip`; each turn takes three draws.  The
result carries the player afterwards and the draws not yet used; `none`
means the draws ran out with the loop still running. -/
def placeLoop (p : CleanPlayerV2) (shipName : String) (length : Int) :
    List Nat → Option (PlaceResult × CleanPlayerV2 × List Nat)
  | rand0 :: rand1 :: rand2 :: rest =>
    match p.chooseValues length rand0 rand1 rand2 with
    | (row, col, dir) =>
      if p.positionOk row col length dir then
        let p1 := { p with numShipsPlaced := p.numShipsPlaced + 1 }
        let p2 := p1.markShip row col length dir
        some (PlaceResult.placed
          (Message.mk CharCode.PLACE_SHIP row col shipName dir length), p2, rest)
      else placeLoop p shipName length rest
  | _ => none

/-- `placeShip(length)` on the list of values `rand()` is going to return. -/
def placeShip (p : CleanPlayerV2) (length : Int) (draws : List Nat) :
    Option (PlaceResult × CleanPlayerV2 × List Nat) :=
  let shipName := ("Ship" ++ toString p.numShipsPlaced).take 9
  if length > p.boardSize then some (PlaceResult.invalidShipLength, p, draws)
  else placeLoop p shipName length draws

/-- `newRound()`. -/
def newRound (p : CleanPlayerV2) : CleanPlayerV2 :=
  let p1 := { p with scanRow := 0 }
  let p2 := { p1 with scanCol := 0 }
  let p3 := { p2 with numShipsPlaced := 0 }
  let p4 := { p3 with shipMark := 'a' }
  let p5 := { p4 with board := initializeBoard p4 p4.board }
  { p5 with shipBoard := initializeBoard p5 p5.shipBoard }

/-- `update(msg)`.  The text written to the terminal in the `OPPONENT_SHOT`
case is not part of the player and is left out. -/
def update (p : CleanPlayerV2) (msg : Message) : CleanPlayerV2 :=
  match msg.messageType with
  | CharCode.HIT | CharCode.KILL | CharCode.MISS =>
    { p with board := Grid.set p.board msg.row msg.col msg.messageType }
  | CharCode.OPPONENT_SHOT =>
    { p with opponentShots :=
        Grid.set p.opponentShots msg.row msg.col (p.opponentShots msg.row msg.col + 1) }
  | _ => p

end CleanPlayerV2

/-- The cell at offset `k` of the run of a ship anchored at `(row, col)`:
along the row for `Horizontal`, down the column otherwise. -/
def runCell (row col : Int) (dir : Direction) (k : Int) : Int × Int :=
  if dir = Direction.Horizontal then (row, col + k) else (row + k, col)

namespace CleanPlayerV2

/-- A sample of the storage a player is constructed in: no cell of it is
clear, no counter is 0 and the cursor is off the origin. -/
def sampleStorage : CleanPlayerV2 :=
  ⟨0, fun _ _ => CharCode.MISS, fun _ _ => CharCode.SHIP, fun _ _ => 7, 5, 5, 9, 'z'⟩

/-- A player for board size `n`, constructed in `sampleStorage` and told
that a round begins. -/
def roundStart (n : Int) : CleanPlayerV2 :=
  newRound (construct n sampleStorage)

/-- The player `roundStart 4` after a ship of length 3 went down column 2
from row 1. -/
def sampleFleet1 : CleanPlayerV2 :=
  markShip { roundStart 4 with numShipsPlaced := 1 } 1 2 3 Direction.Vertical

/-- The player `sampleFleet1` after a second ship of length 3 went along row
0 from column 0. -/
def sampleFleet2 : CleanPlayerV2 :=
  markShip { sampleFleet1 with numShipsPlaced := 2 } 0 0 3 Direction.Horizontal

/-- The shot-result message for outcome `t` at `(row, col)`. -/
def shotResult (t : CharCode) (row col : Int) : Message :=
  Message.mk t row col "" Direction.None 0

/-- The example of the specification on a board of size 6: (3,4) is `HIT`,
(2,4), (3,3) and (3,5) are `MISS`, everything else is `WATER`. -/
def sampleBelief : CleanPlayerV2 :=
  update (update (update (update (roundStart 6)
    (shotResult CharCode.HIT 3 4)) (shotResult CharCode.MISS 2 4))
    (shotResult CharCode.MISS 3 3)) (shotResult CharCode.MISS 3 5)

/-- The player `sampleBelief` after a further `MISS` at (4,4): the `HIT` at
(3,4) has no open neighbour left. -/
def sampleBlocked : CleanPlayerV2 :=
  update sampleBelief (shotResult CharCode.MISS 4 4)

/-- Play of a round from player `p`: for each outcome of the list in turn,
`getMove` is called and `update` is given the shot result of that outcome at
the coordinate `getMove` returned.  The log has one entry per turn, the
coordinate returned together with the state `board` held for it when it was
returned; the second component is the player after the last turn. -/
def play (MIN_SHIP_SIZE : Int) (fuel : Nat) :
    CleanPlayerV2 → List CharCode → Option (List (Int × Int × CharCode) × CleanPlayerV2)
  | p, [] => some ([], p)
  | p, outcome :: outcomes =>
    match getMove MIN_SHIP_SIZE p fuel with
    | none => none
    | some (shot, p1) =>
      match play MIN_SHIP_SIZE fuel (update p1 (shotResult outcome shot.row shot.col))
          outcomes with
      | none => none
      | some (log, p2) => some ((shot.row, shot.col, p.board shot.row shot.col) :: log, p2)

/-- The player `roundStart 6` after a `HIT` at (0,0), a `MISS` at (1,0) and a
`HIT` at (0,1). -/
def sampleHunt : CleanPlayerV2 :=
  update (update (update (roundStart 6)
    (shotResult CharCode.HIT 0 0)) (shotResult CharCode.MISS 1 0)) (shotResult CharCode.HIT 0 1)

/-- The player after `k` successive calls of `scan`. -/
def scanTimes (MIN_SHIP_SIZE : Int) : Nat → CleanPlayerV2 → CleanPlayerV2
  | 0, p => p
  | k + 1, p => scan MIN_SHIP_SIZE (scanTimes MIN_SHIP_SIZE k p)

/-- The scan cursor `(scanRow, scanCol)` of a player. -/
def cursor (p : CleanPlayerV2) : Int × Int :=
  (p.scanRow, p.scanCol)

/-- The values `rand()` returns during a list of sampling attempts of
`placeShip`, three for each attempt: the value for the direction, the value
for the row and the value for the column. -/
def drawsOf : List (Nat × Nat × Nat) → List Nat
  | [] => []
  | (rand0, rand1, rand2) :: attempts => rand0 :: rand1 :: rand2 :: drawsOf attempts

end CleanPlayerV2

namespace CleanPlayerV2

theorem tmod_natCast_range (a : Nat) (b : Int) (hb : 0 < b) :
    0 ≤ Int.tmod (a : Int) b ∧ Int.tmod (a : Int) b < b := by
  rw [Int.tmod_eq_emod (Int.ofNat_nonneg a) (le_of_lt hb)]
  exact ⟨Int.emod_nonneg _ (ne_of_gt hb), Int.emod_lt_of_pos _ hb⟩

theorem forLoop_set_row {α : Type} (row : Int) (v : α) (n : Nat) (lo : Int) (g : Grid α)
    (r c : Int) :
    forLoop (fun i b => Grid.set b row i v) n lo g r c
      = if r = row ∧ lo ≤ c ∧ c < lo + n then v else g r c := by
  induction n generalizing lo g with
  | zero =>
    have : ¬ (r = row ∧ lo ≤ c ∧ c < lo + ((0 : Nat) : Int)) := by omega
    rw [forLoop, if_neg this]
  | succ n ih =>
    rw [forLoop, ih]
    unfold Grid.set
    by_cases h1 : r = row ∧ lo + 1 ≤ c ∧ c < lo + 1 + (n : Int)
    · have h2 : r = row ∧ lo ≤ c ∧ c < lo + ((n + 1 : Nat) : Int) := by
        refine ⟨h1.1, ?_, ?_⟩ <;> push_cast <;> omega
      rw [if_pos h1, if_pos h2]
    · rw [if_neg h1]
      by_cases h3 : r = row ∧ c = lo
      · have h2 : r = row ∧ lo ≤ c ∧ c < lo + ((n + 1 : Nat) : Int) := by
          refine ⟨h3.1, ?_, ?_⟩ <;> push_cast <;> omega
        rw [if_pos h3, if_pos h2]
      · have h2 : ¬ (r = row ∧ lo ≤ c ∧ c < lo + ((n + 1 : Nat) : Int)) := by
          push_cast; omega
        rw [if_neg h3, if_neg h2]

theorem forLoop_set_col {α : Type} (col : Int) (v : α) (n : Nat) (lo : Int) (g : Grid α)
    (r c : Int) :
    forLoop (fun i b => Grid.set b i col v) n lo g r c
      = if c = col ∧ lo ≤ r ∧ r < lo + n then v else g r c := by
  induction n generalizing lo g with
  | zero =>
    have : ¬ (c = col ∧ lo ≤ r ∧ r < lo + ((0 : Nat) : Int)) := by omega
    rw [forLoop, if_neg this]
  | succ n ih =>
    rw [forLoop, ih]
    unfold Grid.set
    by_cases h1 : c = col ∧ lo + 1 ≤ r ∧ r < lo + 1 + (n : Int)
    · have h2 : c = col ∧ lo ≤ r ∧ r < lo + ((n + 1 : Nat) : Int) := by
        refine ⟨h1.1, ?_, ?_⟩ <;> push_cast <;> omega
      rw [if_pos h1, if_pos h2]
    · rw [if_neg h1]
      by_cases h3 : r = lo ∧ c = col
      · have h2 : c = col ∧ lo ≤ r ∧ r < lo + ((n + 1 : Nat) : Int) := by
          refine ⟨h3.2, ?_, ?_⟩ <;> push_cast <;> omega
        rw [if_pos h3, if_pos h2]
      · have h2 : ¬ (c = col ∧ lo ≤ r ∧ r < lo + ((n + 1 : Nat) : Int)) := by
          push_cast; omega
        rw [if_neg h3, if_neg h2]

theorem positionOkLoop_true (line : Int → CharCode) (n : Nat) (lo : Int) :
    positionOkLoop line n lo = true ↔ ∀ i, lo ≤ i → i < lo + n → line i = CharCode.WATER := by
  induction n generalizing lo with
  | zero =>
    simp only [positionOkLoop, true_iff]
    intro i h1 h2
    exfalso; omega
  | succ n ih =>
    rw [positionOkLoop]
    by_cases h : line lo = CharCode.WATER
    · simp only [h, ne_eq, not_true_eq_false, if_false, ih]
      constructor
      · intro H i h1 h2
        by_cases e : i = lo
        · rw [e]; exact h
        · exact H i (by omega) (by push_cast at h2; omega)
      · intro H i h1 h2
        exact H i (by omega) (by push_cast; omega)
    · simp only [ne_eq, h, not_false_eq_true, if_true, Bool.false_eq_true, false_iff]
      intro H
      exact h (H lo (le_refl _) (by push_cast; omega))


theorem chooseValues_dir (p : CleanPlayerV2) (length : Int) (a b c : Nat) :
    (p.chooseValues length a b c).2.2 = Direction.Horizontal ∨
    (p.chooseValues length a b c).2.2 = Direction.Vertical := by
  have h := tmod_natCast_range a 2 (by decide)
  have h2 : Int.tmod (a : Int) 2 = 0 ∨ Int.tmod (a : Int) 2 = 1 := by omega
  unfold chooseValues
  rcases h2 with e | e <;> simp [e, Direction.ofInt]

theorem chooseValues_dir_eq (p : CleanPlayerV2) (length : Int) (a b c : Nat) :
    (p.chooseValues length a b c).2.2 = Direction.ofInt (Int.tmod (a : Int) 2 + 1) := by
  unfold chooseValues
  simp only
  split <;> rfl

theorem chooseValues_horizontal (p : CleanPlayerV2) (length : Int) (a b c : Nat)
    (h : (p.chooseValues length a b c).2.2 = Direction.Horizontal) :
    (p.chooseValues length a b c).1 = Int.tmod (b : Int) p.boardSize ∧
    (p.chooseValues length a b c).2.1 = Int.tmod (c : Int) (p.boardSize + 1 - length) := by
  rw [chooseValues_dir_eq] at h
  unfold chooseValues
  simp only [h, if_true, and_self]

theorem chooseValues_vertical (p : CleanPlayerV2) (length : Int) (a b c : Nat)
    (h : (p.chooseValues length a b c).2.2 = Direction.Vertical) :
    (p.chooseValues length a b c).1 = Int.tmod (b : Int) (p.boardSize + 1 - length) ∧
    (p.chooseValues length a b c).2.1 = Int.tmod (c : Int) p.boardSize := by
  rw [chooseValues_dir_eq] at h
  unfold chooseValues
  simp only [h, reduceCtorEq, if_false, and_self]

theorem markShip_shipBoard (p : CleanPlayerV2) (row col length : Int) (dir : Direction)
    (r c : Int) :
    (p.markShip row col length dir).shipBoard r c =
      if dir = Direction.Horizontal then
        (if r = row ∧ col ≤ c ∧ c < col + length.toNat then CharCode.SHIP else p.shipBoard r c)
      else
        (if c = col ∧ row ≤ r ∧ r < row + length.toNat then CharCode.SHIP else p.shipBoard r c) := by
  unfold markShip
  split
  · simp only [forLoop_set_row]
  · simp only [forLoop_set_col]

theorem markShip_numShipsPlaced (p : CleanPlayerV2) (row col length : Int) (dir : Direction) :
    (p.markShip row col length dir).numShipsPlaced = p.numShipsPlaced := by
  unfold markShip
  split <;> rfl

theorem placeLoop_some (p : CleanPlayerV2) (shipName : String) (length : Int)
    (draws : List Nat) (res : PlaceResult) (p' : CleanPlayerV2) (rest : List Nat)
    (h : p.placeLoop shipName length draws = some (res, p', rest)) :
    ∃ a b c : Nat,
      p.positionOk (p.chooseValues length a b c).1 (p.chooseValues length a b c).2.1 length
          (p.chooseValues length a b c).2.2 = true ∧
      res = PlaceResult.placed (Message.mk CharCode.PLACE_SHIP
          (p.chooseValues length a b c).1 (p.chooseValues length a b c).2.1 shipName
          (p.chooseValues length a b c).2.2 length) ∧
      p' = markShip { p with numShipsPlaced := p.numShipsPlaced + 1 }
          (p.chooseValues length a b c).1 (p.chooseValues length a b c).2.1 length
          (p.chooseValues length a b c).2.2 := by
  induction draws using placeLoop.induct p shipName length with
  | case1 a b c rest row col dir hcv hok =>
    rw [placeLoop] at h
    simp only [hcv, hok, if_true, Option.some.injEq, Prod.mk.injEq] at h
    refine ⟨a, b, c, ?_⟩
    rw [hcv]
    exact ⟨hok, h.1.symm, h.2.1.symm⟩
  | case2 a b c rest row col dir hcv hok ih =>
    rw [placeLoop] at h
    simp only [hcv, hok, if_false] at h
    exact ih h
  | case3 draws hne =>
    rw [placeLoop] at h
    · exact absurd h (by simp)
    · exact hne


/-- C1: whenever `placeShip(L)` with `1 ≤ L ≤ N` returns a placement
`(row, col, dir)`, `dir` is one of the two orientations, each of the `L` cells
of the run from `(row, col)` in direction `dir` is on the board, was `WATER` in
`shipBoard` before the call and is `SHIP` after it, every cell outside the run
keeps its value, and `numShipsPlaced` has grown by exactly one. -/
theorem placeShip_placed (p : CleanPlayerV2) (length : Int) (draws : List Nat)
    (msg : Message) (p' : CleanPlayerV2) (rest : List Nat)
    (hN : 1 ≤ p.boardSize) (h1 : 1 ≤ length) (hL : length ≤ p.boardSize)
    (h : p.placeShip length draws = some (PlaceResult.placed msg, p', rest)) :
    (msg.dir = Direction.Horizontal ∨ msg.dir = Direction.Vertical) ∧
    msg.length = length ∧
    (∀ k : Int, 0 ≤ k → k < length →
      p.isOnBoard (runCell msg.row msg.col msg.dir k).1 (runCell msg.row msg.col msg.dir k).2
          = true ∧
      p.shipBoard (runCell msg.row msg.col msg.dir k).1 (runCell msg.row msg.col msg.dir k).2
          = CharCode.WATER ∧
      p'.shipBoard (runCell msg.row msg.col msg.dir k).1 (runCell msg.row msg.col msg.dir k).2
          = CharCode.SHIP) ∧
    (∀ r c : Int, (∀ k : Int, 0 ≤ k → k < length → (r, c) ≠ runCell msg.row msg.col msg.dir k) →
      p'.shipBoard r c = p.shipBoard r c) ∧
    p'.numShipsPlaced = p.numShipsPlaced + 1 := by
  unfold placeShip at h
  rw [if_neg (by omega)] at h
  obtain ⟨a, b, c, hok, hres, hp'⟩ := placeLoop_some p _ length draws _ p' rest h
  have hmsg := PlaceResult.placed.inj hres
  have hdir := chooseValues_dir p length a b c
  have ha := tmod_natCast_range b p.boardSize (by omega)
  have hb := tmod_natCast_range c p.boardSize (by omega)
  have ha' := tmod_natCast_range b (p.boardSize + 1 - length) (by omega)
  have hb' := tmod_natCast_range c (p.boardSize + 1 - length) (by omega)
  have hlen : ((length.toNat : Nat) : Int) = length := Int.toNat_of_nonneg (by omega)
  subst hmsg hp'
  simp only
  refine ⟨hdir, trivial, ?_, ?_, ?_⟩
  · intro k hk0 hkL
    rw [markShip_shipBoard]
    unfold positionOk at hok
    rcases hdir with e | e
    · obtain ⟨hr, hc⟩ := chooseValues_horizontal p length a b c e
      rw [e, if_pos rfl, positionOkLoop_true] at hok
      simp only [runCell, e, if_true, isOnBoard]
      have hw := hok ((p.chooseValues length a b c).2.1 + k) (by omega) (by omega)
      refine ⟨?_, hw, ?_⟩
      · rw [if_pos (by omega)]
      · rw [if_pos ⟨trivial, by omega, by omega⟩]
    · obtain ⟨hr, hc⟩ := chooseValues_vertical p length a b c e
      rw [e, if_neg (by decide), positionOkLoop_true] at hok
      simp only [runCell, e, reduceCtorEq, if_false, isOnBoard]
      have hw := hok ((p.chooseValues length a b c).1 + k) (by omega) (by omega)
      refine ⟨?_, hw, ?_⟩
      · rw [if_pos (by omega)]
      · rw [if_pos ⟨trivial, by omega, by omega⟩]
  · intro r' c' hout
    rw [markShip_shipBoard]
    rcases hdir with e | e
    · simp only [runCell, e, if_true] at hout ⊢
      rw [if_neg]
      rintro ⟨h1, h2, h3⟩
      exact hout (c' - (p.chooseValues length a b c).2.1) (by omega) (by omega)
        (by rw [h1]; congr 1; omega)
    · simp only [runCell, e, reduceCtorEq, if_false] at hout ⊢
      rw [if_neg]
      rintro ⟨h1, h2, h3⟩
      exact hout (r' - (p.chooseValues length a b c).1) (by omega) (by omega)
        (by rw [h1]; congr 1; omega)
  · rw [markShip_numShipsPlaced]

/-- Witness for `placeShip_placed`: on `sampleFleet1` the first attempt
(vertical at (1,2)) collides with the ship already there, the second one
(horizontal at (0,0)) is committed; cell (0,2) of that run was `WATER` and is
`SHIP`, the counter went from 1 to 2. -/
theorem placeShip_placed_witness :
    sampleFleet1.placeShip 3 [3, 1, 2, 0, 0, 0, 5] =
      some (PlaceResult.placed ⟨CharCode.PLACE_SHIP, 0, 0,
        ("Ship" ++ toString sampleFleet1.numShipsPlaced).take 9, Direction.Horizontal, 3⟩,
        sampleFleet2, [5]) ∧
    sampleFleet1.isOnBoard 0 2 = true ∧
    sampleFleet1.shipBoard 0 2 = CharCode.WATER ∧
    sampleFleet2.shipBoard 0 2 = CharCode.SHIP ∧
    sampleFleet2.shipBoard 1 2 = sampleFleet1.shipBoard 1 2 ∧
    sampleFleet2.numShipsPlaced = sampleFleet1.numShipsPlaced + 1 :=
  have h := placeShip_placed sampleFleet1 3 [3, 1, 2, 0, 0, 0, 5]
    ⟨CharCode.PLACE_SHIP, 0, 0,
      ("Ship" ++ toString sampleFleet1.numShipsPlaced).take 9, Direction.Horizontal, 3⟩
    sampleFleet2 [5] (by decide) (by decide) (by decide) rfl
  ⟨rfl, (h.2.2.1 2 (by decide) (by decide)).1, (h.2.2.1 2 (by decide) (by decide)).2.1,
    (h.2.2.1 2 (by decide) (by decide)).2.2,
    h.2.2.2.1 1 2 (by
      intro k hk0 hk3
      simp only [runCell, if_true, ne_eq, Prod.mk.injEq, not_and]
      intro h1
      exact absurd h1 (by decide)),
    h.2.2.2.2⟩

/-- C2: `placeShip(L)` returns the invalid-ship-length result if and only if
`L > boardSize`; when it does, the player (own-fleet grid and placed-ship
counter included) and the list of draws are exactly as they were. -/
theorem placeShip_invalid_iff (p : CleanPlayerV2) (length : Int) (draws : List Nat) :
    ((∃ p' rest, p.placeShip length draws = some (PlaceResult.invalidShipLength, p', rest))
        ↔ length > p.boardSize) ∧
    (length > p.boardSize →
      p.placeShip length draws = some (PlaceResult.invalidShipLength, p, draws)) := by
  constructor
  · constructor
    · rintro ⟨p', rest, h⟩
      by_contra hn
      unfold placeShip at h
      rw [if_neg hn] at h
      obtain ⟨a, b, c, -, hres, -⟩ := placeLoop_some p _ length draws _ p' rest h
      exact PlaceResult.noConfusion hres
    · intro h
      exact ⟨p, draws, by unfold placeShip; rw [if_pos h]⟩
  · intro h
    unfold placeShip
    rw [if_pos h]

/-- Witness for `placeShip_invalid_iff`: a ship of length 5 on a board of
size 4. -/
theorem placeShip_invalid_iff_witness :
    (5 : Int) > (roundStart 4).boardSize ∧
    (roundStart 4).placeShip 5 [3, 1, 2] =
      some (PlaceResult.invalidShipLength, roundStart 4, [3, 1, 2]) :=
  ⟨by decide, (placeShip_invalid_iff (roundStart 4) 5 [3, 1, 2]).2 (by decide)⟩


theorem scan_board (S : Int) (p : CleanPlayerV2) :
    (scan S p).board = p.board ∧ (scan S p).shipBoard = p.shipBoard ∧
    (scan S p).opponentShots = p.opponentShots ∧ (scan S p).boardSize = p.boardSize ∧
    (scan S p).numShipsPlaced = p.numShipsPlaced := by
  unfold scan
  simp only
  split_ifs <;> exact ⟨rfl, rfl, rfl, rfl, rfl⟩

/-- C3: the three-way rule of `getMove` on the cell of `board` under the scan
cursor.  `WATER`: the shot is the cursor cell and the player is unchanged.
`HIT`: the shot is what `getFollowUpShot` returns for the cursor cell and the
player is unchanged.  `KILL` or `MISS`: the player is advanced once by `scan`
and the shot is the new cursor cell.  In every case `board` and `shipBoard`
are what they were. -/
theorem getMove_rule (S : Int) (p : CleanPlayerV2) (fuel : Nat) :
    (p.board p.scanRow p.scanCol = CharCode.WATER →
      getMove S p fuel =
        some (Message.mk CharCode.SHOT p.scanRow p.scanCol "Bang" Direction.None 1, p)) ∧
    (p.board p.scanRow p.scanCol = CharCode.HIT →
      getMove S p fuel =
        (p.getFollowUpShot fuel p.scanRow p.scanCol).map
          (fun rc => (Message.mk CharCode.SHOT rc.1 rc.2 "Bang" Direction.None 1, p))) ∧
    (p.board p.scanRow p.scanCol = CharCode.KILL ∨ p.board p.scanRow p.scanCol = CharCode.MISS →
      getMove S p fuel =
        some (Message.mk CharCode.SHOT (scan S p).scanRow (scan S p).scanCol "Bang"
          Direction.None 1, scan S p)) ∧
    (∀ msg p', getMove S p fuel = some (msg, p') →
      p'.board = p.board ∧ p'.shipBoard = p.shipBoard) := by
  refine ⟨?_, ?_, ?_, ?_⟩
  · intro h
    unfold getMove
    simp only [h, if_true]
  · intro h
    unfold getMove
    simp only [h, reduceCtorEq, if_false, if_true]
    cases p.getFollowUpShot fuel p.scanRow p.scanCol with
    | none => rfl
    | some rc => rfl
  · intro h
    unfold getMove
    rcases h with h | h <;> simp only [h, reduceCtorEq, if_false]
  · intro msg p' h
    unfold getMove at h
    simp only at h
    split_ifs at h with h1 h2
    · simp only [Option.some.injEq, Prod.mk.injEq] at h
      rw [← h.2]
      exact ⟨rfl, rfl⟩
    · cases hf : p.getFollowUpShot fuel p.scanRow p.scanCol with
      | none => rw [hf] at h; exact absurd h (by simp)
      | some rc =>
        rw [hf] at h
        simp only [Option.some.injEq, Prod.mk.injEq] at h
        rw [← h.2]
        exact ⟨rfl, rfl⟩
    · simp only [Option.some.injEq, Prod.mk.injEq] at h
      rw [← h.2]
      exact ⟨(scan_board S p).1, (scan_board S p).2.1⟩


theorem isOnBoard_iff (p : CleanPlayerV2) (row col : Int) :
    p.isOnBoard row col = true ↔ 0 ≤ row ∧ row < p.boardSize ∧ 0 ≤ col ∧ col < p.boardSize := by
  unfold isOnBoard
  split_ifs with h
  · simp only [true_iff]; omega
  · simp only [Bool.false_eq_true, false_iff]; omega

/-- What a result of the search loop can be: a failure hands the anchor back,
a success is an on-board `WATER` cell at some distance `k ≥ range`, reached
over cells that are on the board and neither `WATER`, `MISS` nor `KILL`. -/
theorem searchLoop_some (p : CleanPlayerV2) (row col dr dc : Int) (fuel : Nat) (range : Int)
    (b : Bool) (r c : Int) (h : p.searchLoop row col dr dc fuel range = some (b, r, c)) :
    (b = false ∧ r = row ∧ c = col) ∨
    (b = true ∧ ∃ k : Int, range ≤ k ∧ r = row + dr * k ∧ c = col + dc * k ∧
      p.isOnBoard r c = true ∧ p.board r c = CharCode.WATER ∧
      ∀ i : Int, range ≤ i → i < k →
        p.isOnBoard (row + dr * i) (col + dc * i) = true ∧
        p.board (row + dr * i) (col + dc * i) ≠ CharCode.WATER ∧
        p.board (row + dr * i) (col + dc * i) ≠ CharCode.MISS ∧
        p.board (row + dr * i) (col + dc * i) ≠ CharCode.KILL) := by
  induction fuel generalizing range with
  | zero => exact absurd h (by simp [searchLoop])
  | succ n ih =>
    rw [searchLoop] at h
    split_ifs at h with h1 h2 h3
    · simp only [Option.some.injEq, Prod.mk.injEq] at h
      exact Or.inl ⟨h.1.symm, h.2.1.symm, h.2.2.symm⟩
    · simp only [Option.some.injEq, Prod.mk.injEq] at h
      refine Or.inr ⟨h.1.symm, range, le_refl _, h.2.1.symm, h.2.2.symm, ?_, ?_, ?_⟩
      · rw [← h.2.1, ← h.2.2]; simpa using h1
      · rw [← h.2.1, ← h.2.2]; exact h2
      · intro i hi1 hi2; exfalso; omega
    · simp only [Option.some.injEq, Prod.mk.injEq] at h
      exact Or.inl ⟨h.1.symm, h.2.1.symm, h.2.2.symm⟩
    · rcases ih (range + 1) h with hf | ⟨hb, k, hk, hr, hc, hon, hw, hall⟩
      · exact Or.inl hf
      · refine Or.inr ⟨hb, k, by omega, hr, hc, hon, hw, ?_⟩
        intro i hi1 hi2
        by_cases e : i = range
        · subst e
          refine ⟨by simpa using h1, h2, ?_, ?_⟩
          · exact fun hm => h3 (Or.inl hm)
          · exact fun hk => h3 (Or.inr hk)
        · exact hall i (by omega) hi2

/-- More fuel does not change a result of the search loop. -/
theorem searchLoop_mono (p : CleanPlayerV2) (row col dr dc : Int) (fuel : Nat) (range : Int)
    (x : Bool × Int × Int) (h : p.searchLoop row col dr dc fuel range = some x) (m : Nat) :
    p.searchLoop row col dr dc (fuel + m) range = some x := by
  induction fuel generalizing range with
  | zero => exact absurd h (by simp [searchLoop])
  | succ n ih =>
    rw [show n + 1 + m = (n + m) + 1 by omega, searchLoop]
    rw [searchLoop] at h
    split_ifs at h ⊢ with h1 h2 h3
    · exact h
    · exact h
    · exact h
    · exact ih (range + 1) h

/-- The search loop returns once the fuel covers the cells that can still be
on the board: if every on-board cell of the ray lies at a distance below
`bound`, then `fuel + 1` turns are enough from any `range` with
`bound ≤ range + fuel`. -/
theorem searchLoop_returns (p : CleanPlayerV2) (row col dr dc : Int) (bound : Int)
    (hbound : ∀ i : Int, p.isOnBoard (row + dr * i) (col + dc * i) = true → i < bound)
    (fuel : Nat) (range : Int) (h : bound ≤ range + fuel) :
    ∃ x, p.searchLoop row col dr dc (fuel + 1) range = some x := by
  induction fuel generalizing range with
  | zero =>
    rw [searchLoop]
    split_ifs with h1 h2 h3
    · exact ⟨_, rfl⟩
    · exact ⟨_, rfl⟩
    · exact ⟨_, rfl⟩
    · have := hbound range (by simpa using h1)
      exfalso; push_cast at h; omega
  | succ n ih =>
    rw [searchLoop]
    split_ifs with h1 h2 h3
    · exact ⟨_, rfl⟩
    · exact ⟨_, rfl⟩
    · exact ⟨_, rfl⟩
    · exact ih (range + 1) (by push_cast at h; omega)

/-- A run of `HIT` cells followed by an on-board `WATER` cell: the search loop
walks over the run and returns the `WATER` cell. -/
theorem searchLoop_run (p : CleanPlayerV2) (row col dr dc : Int) (j : Nat) (fuel : Nat)
    (range : Int) (hfuel : j < fuel)
    (hrun : ∀ i : Int, range ≤ i → i < range + j →
      p.isOnBoard (row + dr * i) (col + dc * i) = true ∧
      p.board (row + dr * i) (col + dc * i) = CharCode.HIT)
    (hon : p.isOnBoard (row + dr * (range + j)) (col + dc * (range + j)) = true)
    (hw : p.board (row + dr * (range + j)) (col + dc * (range + j)) = CharCode.WATER) :
    p.searchLoop row col dr dc fuel range
      = some (true, row + dr * (range + j), col + dc * (range + j)) := by
  induction j generalizing fuel range with
  | zero =>
    obtain ⟨n, rfl⟩ : ∃ n, fuel = n + 1 := ⟨fuel - 1, by omega⟩
    simp only [Nat.cast_zero, add_zero] at hon hw ⊢
    rw [searchLoop]
    simp only [hon, hw, Bool.not_true, Bool.false_eq_true, if_false, if_true]
  | succ j ih =>
    obtain ⟨n, rfl⟩ : ∃ n, fuel = n + 1 := ⟨fuel - 1, by omega⟩
    have h0 := hrun range (le_refl _) (by push_cast; omega)
    rw [searchLoop]
    simp only [h0.1, h0.2, reduceCtorEq, Bool.not_true, Bool.false_eq_true, if_false, or_self]
    have e : range + ((j + 1 : Nat) : Int) = range + 1 + (j : Int) := by push_cast; omega
    rw [e] at hon hw ⊢
    exact ih n (range + 1) (by omega)
      (fun i hi1 hi2 => hrun i (by omega) (by push_cast; omega)) hon hw


/-- From an on-board anchor, each of the four searches of `getFollowUpShot`
returns within `boardSize` turns of its loop. -/
theorem search_returns (p : CleanPlayerV2) (fuel : Nat) (row col dr dc : Int)
    (hon : p.isOnBoard row col = true) (hfuel : p.boardSize ≤ fuel)
    (hd : (dr = 1 ∧ dc = 0) ∨ (dr = 0 ∧ dc = 1) ∨ (dr = 0 ∧ dc = -1) ∨ (dr = -1 ∧ dc = 0)) :
    ∃ x, p.search fuel row col dr dc = some x := by
  rw [isOnBoard_iff] at hon
  obtain ⟨n, rfl⟩ : ∃ n, fuel = n + 1 := ⟨fuel - 1, by omega⟩
  unfold search
  push_cast at hfuel
  rcases hd with ⟨h1, h2⟩ | ⟨h1, h2⟩ | ⟨h1, h2⟩ | ⟨h1, h2⟩ <;> subst h1 h2
  · refine searchLoop_returns p row col 1 0 (p.boardSize - row) ?_ n 1 (by omega)
    intro i hi
    rw [isOnBoard_iff] at hi
    omega
  · refine searchLoop_returns p row col 0 1 (p.boardSize - col) ?_ n 1 (by omega)
    intro i hi
    rw [isOnBoard_iff] at hi
    omega
  · refine searchLoop_returns p row col 0 (-1) (col + 1) ?_ n 1 (by omega)
    intro i hi
    rw [isOnBoard_iff] at hi
    omega
  · refine searchLoop_returns p row col (-1) 0 (row + 1) ?_ n 1 (by omega)
    intro i hi
    rw [isOnBoard_iff] at hi
    omega

/-- A search that returns without success hands the anchor back. -/
theorem search_false (p : CleanPlayerV2) (fuel : Nat) (row col dr dc : Int) (r c : Int)
    (h : p.search fuel row col dr dc = some (false, r, c)) : r = row ∧ c = col := by
  rcases searchLoop_some p row col dr dc fuel 1 false r c h with h1 | h1
  · exact h1.2
  · exact absurd h1.1 (by decide)

/-- From an on-board anchor with `boardSize` turns of fuel, a search either
succeeds or returns `(false, row, col)`. -/
theorem search_cases (p : CleanPlayerV2) (fuel : Nat) (row col dr dc : Int)
    (hon : p.isOnBoard row col = true) (hfuel : p.boardSize ≤ fuel)
    (hd : (dr = 1 ∧ dc = 0) ∨ (dr = 0 ∧ dc = 1) ∨ (dr = 0 ∧ dc = -1) ∨ (dr = -1 ∧ dc = 0)) :
    p.search fuel row col dr dc = some (false, row, col) ∨
    ∃ r c, p.search fuel row col dr dc = some (true, r, c) := by
  obtain ⟨⟨b, r, c⟩, hx⟩ := search_returns p fuel row col dr dc hon hfuel hd
  cases b with
  | false =>
    obtain ⟨h1, h2⟩ := search_false p fuel row col dr dc r c hx
    subst h1 h2
    exact Or.inl hx
  | true => exact Or.inr ⟨r, c, hx⟩

/-- The result of `getFollowUpShot` by the results of its four searches, taken
in the order of the source. -/
theorem getFollowUpShot_first (p : CleanPlayerV2) (fuel : Nat) (row col : Int) :
    (∀ r c, p.search fuel row col 1 0 = some (true, r, c) →
      p.getFollowUpShot fuel row col = some (r, c)) ∧
    (∀ r c, p.search fuel row col 1 0 = some (false, row, col) →
      p.search fuel row col 0 1 = some (true, r, c) →
      p.getFollowUpShot fuel row col = some (r, c)) ∧
    (∀ r c, p.search fuel row col 1 0 = some (false, row, col) →
      p.search fuel row col 0 1 = some (false, row, col) →
      p.search fuel row col 0 (-1) = some (true, r, c) →
      p.getFollowUpShot fuel row col = some (r, c)) ∧
    (∀ r c, p.search fuel row col 1 0 = some (false, row, col) →
      p.search fuel row col 0 1 = some (false, row, col) →
      p.search fuel row col 0 (-1) = some (false, row, col) →
      p.search fuel row col (-1) 0 = some (true, r, c) →
      p.getFollowUpShot fuel row col = some (r, c)) ∧
    (p.search fuel row col 1 0 = some (false, row, col) →
      p.search fuel row col 0 1 = some (false, row, col) →
      p.search fuel row col 0 (-1) = some (false, row, col) →
      p.search fuel row col (-1) 0 = some (false, row, col) →
      p.getFollowUpShot fuel row col = some (row, col)) ∧
    (p.isOnBoard row col = true → p.boardSize ≤ fuel →
      ∃ rc, p.getFollowUpShot fuel row col = some rc) := by
  refine ⟨?_, ?_, ?_, ?_, ?_, ?_⟩
  · intro r c h1
    unfold getFollowUpShot
    simp only [h1]
  · intro r c h1 h2
    unfold getFollowUpShot
    simp only [h1, h2]
  · intro r c h1 h2 h3
    unfold getFollowUpShot
    simp only [h1, h2, h3]
  · intro r c h1 h2 h3 h4
    unfold getFollowUpShot
    simp only [h1, h2, h3, h4]
  · intro h1 h2 h3 h4
    unfold getFollowUpShot
    simp only [h1, h2, h3, h4]
  · intro hon hfuel
    unfold getFollowUpShot
    rcases search_cases p fuel row col 1 0 hon hfuel (by simp) with h1 | ⟨r, c, h1⟩
    · rcases search_cases p fuel row col 0 1 hon hfuel (by simp) with h2 | ⟨r, c, h2⟩
      · rcases search_cases p fuel row col 0 (-1) hon hfuel (by simp) with h3 | ⟨r, c, h3⟩
        · rcases search_cases p fuel row col (-1) 0 hon hfuel (by simp) with h4 | ⟨r, c, h4⟩
          · simp only [h1, h2, h3, h4]; exact ⟨_, rfl⟩
          · simp only [h1, h2, h3, h4]; exact ⟨_, rfl⟩
        · simp only [h1, h2, h3]; exact ⟨_, rfl⟩
      · simp only [h1, h2]; exact ⟨_, rfl⟩
    · simp only [h1]; exact ⟨_, rfl⟩

/-- C5: `getFollowUpShot` returns the cell of the first search that succeeds
in the order Down (1,0), Right (0,1), Left (0,-1), Up (-1,0): the cell of a
direction is returned when its search succeeds and the searches before it have
all failed.  When all four fail the anchor itself is returned, as an ordinary
result.  From an on-board anchor, `boardSize` turns of fuel are enough for a
result. -/
theorem getFollowUpShot_order (p : CleanPlayerV2) (fuel : Nat) (row col : Int) :
    (∀ r c, p.search fuel row col 1 0 = some (true, r, c) →
      p.getFollowUpShot fuel row col = some (r, c)) ∧
    (∀ r c, p.search fuel row col 1 0 = some (false, row, col) →
      p.search fuel row col 0 1 = some (true, r, c) →
      p.getFollowUpShot fuel row col = some (r, c)) ∧
    (∀ r c, p.search fuel row col 1 0 = some (false, row, col) →
      p.search fuel row col 0 1 = some (false, row, col) →
      p.search fuel row col 0 (-1) = some (true, r, c) →
      p.getFollowUpShot fuel row col = some (r, c)) ∧
    (∀ r c, p.search fuel row col 1 0 = some (false, row, col) →
      p.search fuel row col 0 1 = some (false, row, col) →
      p.search fuel row col 0 (-1) = some (false, row, col) →
      p.search fuel row col (-1) 0 = some (true, r, c) →
      p.getFollowUpShot fuel row col = some (r, c)) ∧
    (p.search fuel row col 1 0 = some (false, row, col) →
      p.search fuel row col 0 1 = some (false, row, col) →
      p.search fuel row col 0 (-1) = some (false, row, col) →
      p.search fuel row col (-1) 0 = some (false, row, col) →
      p.getFollowUpShot fuel row col = some (row, col)) ∧
    (p.isOnBoard row col = true → p.boardSize ≤ fuel →
      ∃ rc, p.getFollowUpShot fuel row col = some rc) :=
  getFollowUpShot_first p fuel row col

/-- Witness for `getFollowUpShot_order`: with the `HIT` at (3,4) closed in by
four `MISS` cells, all four searches fail and the anchor (3,4) comes back. -/
theorem getFollowUpShot_order_witness :
    sampleBlocked.getFollowUpShot 6 3 4 = some (3, 4) :=
  (getFollowUpShot_order sampleBlocked 6 3 4).2.2.2.2.1 rfl rfl rfl rfl

/-- A run of `HIT` cells from an on-board anchor to an on-board `WATER` cell in
one of the four directions: the search in that direction returns the `WATER`
cell. -/
theorem search_run (p : CleanPlayerV2) (fuel : Nat) (row col dr dc : Int) (j : Nat)
    (hon : p.isOnBoard row col = true) (hfuel : p.boardSize ≤ fuel)
    (hd : (dr = 1 ∧ dc = 0) ∨ (dr = 0 ∧ dc = 1) ∨ (dr = 0 ∧ dc = -1) ∨ (dr = -1 ∧ dc = 0))
    (hrun : ∀ i : Int, 1 ≤ i → i ≤ j → p.board (row + dr * i) (col + dc * i) = CharCode.HIT)
    (hend : p.isOnBoard (row + dr * (j + 1)) (col + dc * (j + 1)) = true)
    (hw : p.board (row + dr * (j + 1)) (col + dc * (j + 1)) = CharCode.WATER) :
    p.search fuel row col dr dc = some (true, row + dr * (j + 1), col + dc * (j + 1)) := by
  have e : (1 : Int) + (j : Int) = (j : Int) + 1 := by omega
  unfold search
  have key := searchLoop_run p row col dr dc j fuel 1
  rw [e] at key
  rw [isOnBoard_iff] at hon hend
  refine key ?_ ?_ (by rw [isOnBoard_iff]; exact hend) hw
  · rcases hd with ⟨h1, h2⟩ | ⟨h1, h2⟩ | ⟨h1, h2⟩ | ⟨h1, h2⟩ <;> subst h1 h2 <;> omega
  · intro i hi1 hi2
    refine ⟨?_, hrun i hi1 (by omega)⟩
    rw [isOnBoard_iff]
    rcases hd with ⟨h1, h2⟩ | ⟨h1, h2⟩ | ⟨h1, h2⟩ | ⟨h1, h2⟩ <;> subst h1 h2 <;> omega

/-- C6: target-tracker chaining.  From an on-board anchor, if the `j` cells at
distances 1..j in a cardinal direction are `HIT` and the cell at distance
`j + 1` is on the board and `WATER`, then `getFollowUpShot` returns that cell,
provided no search of a direction earlier in the order Down, Right, Left, Up
succeeds; for Down there is no proviso. -/
theorem getFollowUpShot_chain (p : CleanPlayerV2) (fuel : Nat) (row col dr dc : Int) (j : Nat)
    (hon : p.isOnBoard row col = true) (hfuel : p.boardSize ≤ fuel)
    (hrun : ∀ i : Int, 1 ≤ i → i ≤ j → p.board (row + dr * i) (col + dc * i) = CharCode.HIT)
    (hend : p.isOnBoard (row + dr * (j + 1)) (col + dc * (j + 1)) = true)
    (hw : p.board (row + dr * (j + 1)) (col + dc * (j + 1)) = CharCode.WATER)
    (hd : (dr = 1 ∧ dc = 0) ∨
      (dr = 0 ∧ dc = 1 ∧
        (∀ r c, p.search fuel row col 1 0 ≠ some (true, r, c))) ∨
      (dr = 0 ∧ dc = -1 ∧
        (∀ r c, p.search fuel row col 1 0 ≠ some (true, r, c)) ∧
        (∀ r c, p.search fuel row col 0 1 ≠ some (true, r, c))) ∨
      (dr = -1 ∧ dc = 0 ∧
        (∀ r c, p.search fuel row col 1 0 ≠ some (true, r, c)) ∧
        (∀ r c, p.search fuel row col 0 1 ≠ some (true, r, c)) ∧
        (∀ r c, p.search fuel row col 0 (-1) ≠ some (true, r, c)))) :
    p.getFollowUpShot fuel row col = some (row + dr * (j + 1), col + dc * (j + 1)) := by
  have fails : ∀ dr' dc' : Int,
      ((dr' = 1 ∧ dc' = 0) ∨ (dr' = 0 ∧ dc' = 1) ∨ (dr' = 0 ∧ dc' = -1) ∨ (dr' = -1 ∧ dc' = 0)) →
      (∀ r c, p.search fuel row col dr' dc' ≠ some (true, r, c)) →
      p.search fuel row col dr' dc' = some (false, row, col) := by
    intro dr' dc' hd' hno
    rcases search_cases p fuel row col dr' dc' hon hfuel hd' with h | ⟨r, c, h⟩
    · exact h
    · exact absurd h (hno r c)
  have ord := getFollowUpShot_first p fuel row col
  rcases hd with ⟨h1, h2⟩ | ⟨h1, h2, n1⟩ | ⟨h1, h2, n1, n2⟩ | ⟨h1, h2, n1, n2, n3⟩
  · have hs := search_run p fuel row col dr dc j hon hfuel (Or.inl ⟨h1, h2⟩) hrun hend hw
    subst h1 h2
    exact ord.1 _ _ hs
  · have hs := search_run p fuel row col dr dc j hon hfuel (Or.inr (Or.inl ⟨h1, h2⟩))
      hrun hend hw
    subst h1 h2
    exact ord.2.1 _ _ (fails 1 0 (by simp) n1) hs
  · have hs := search_run p fuel row col dr dc j hon hfuel (Or.inr (Or.inr (Or.inl ⟨h1, h2⟩)))
      hrun hend hw
    subst h1 h2
    exact ord.2.2.1 _ _ (fails 1 0 (by simp) n1) (fails 0 1 (by simp) n2) hs
  · have hs := search_run p fuel row col dr dc j hon hfuel (Or.inr (Or.inr (Or.inr ⟨h1, h2⟩)))
      hrun hend hw
    subst h1 h2
    exact ord.2.2.2.1 _ _ (fails 1 0 (by simp) n1) (fails 0 1 (by simp) n2)
      (fails 0 (-1) (by simp) n3) hs

/-- Witness for `getFollowUpShot_chain`, the example of the specification:
(3,4) `HIT`, (4,4) `WATER`, (2,4), (3,3), (3,5) `MISS` on a board of size 6;
the search Down with no `HIT` in between (`j = 0`) gives (4,4). -/
theorem getFollowUpShot_chain_witness :
    sampleBelief.board 3 4 = CharCode.HIT ∧ sampleBelief.board 4 4 = CharCode.WATER ∧
    sampleBelief.board 2 4 = CharCode.MISS ∧ sampleBelief.board 3 3 = CharCode.MISS ∧
    sampleBelief.board 3 5 = CharCode.MISS ∧
    sampleBelief.getFollowUpShot 6 3 4 = some (4, 4) :=
  ⟨rfl, rfl, rfl, rfl, rfl,
    getFollowUpShot_chain sampleBelief 6 3 4 1 0 0 rfl (by decide)
      (fun i h1 h2 => absurd (le_trans h1 h2) (by decide)) rfl rfl (Or.inl ⟨rfl, rfl⟩)⟩

theorem forLoop_fill {α : Type} (v : α) (m n : Nat) (lo : Int) (g : Grid α) (r c : Int) :
    forLoop (fun row b => forLoop (fun col b1 => Grid.set b1 row col v) m 0 b) n lo g r c
      = if (lo ≤ r ∧ r < lo + n) ∧ (0 ≤ c ∧ c < m) then v else g r c := by
  induction n generalizing lo g with
  | zero =>
    have : ¬ ((lo ≤ r ∧ r < lo + ((0 : Nat) : Int)) ∧ (0 ≤ c ∧ c < (m : Int))) := by omega
    rw [forLoop, if_neg this]
  | succ n ih =>
    rw [forLoop, ih, forLoop_set_row]
    by_cases h1 : (lo + 1 ≤ r ∧ r < lo + 1 + (n : Int)) ∧ (0 ≤ c ∧ c < (m : Int))
    · have h2 : (lo ≤ r ∧ r < lo + ((n + 1 : Nat) : Int)) ∧ (0 ≤ c ∧ c < (m : Int)) := by
        push_cast; omega
      rw [if_pos h1, if_pos h2]
    · rw [if_neg h1]
      by_cases h3 : r = lo ∧ 0 ≤ c ∧ c < 0 + (m : Int)
      · have h2 : (lo ≤ r ∧ r < lo + ((n + 1 : Nat) : Int)) ∧ (0 ≤ c ∧ c < (m : Int)) := by
          push_cast; omega
        rw [if_pos h3, if_pos h2]
      · have h2 : ¬ ((lo ≤ r ∧ r < lo + ((n + 1 : Nat) : Int)) ∧ (0 ≤ c ∧ c < (m : Int))) := by
          push_cast; omega
        rw [if_neg h3, if_neg h2]

theorem initializeBoard_apply (p : CleanPlayerV2) (g : Grid CharCode) (r c : Int) :
    p.initializeBoard g r c
      = if 0 ≤ r ∧ r < p.boardSize ∧ 0 ≤ c ∧ c < p.boardSize then CharCode.WATER else g r c := by
  unfold initializeBoard
  rw [forLoop_fill]
  by_cases h : 0 ≤ r ∧ r < p.boardSize ∧ 0 ≤ c ∧ c < p.boardSize
  · rw [if_pos h, if_pos (by omega)]
  · rw [if_neg h, if_neg (by omega)]

/-- C7: round reset.  After `newRound`, whatever the player was before, every
cell `(r, c)` with `0 ≤ r, c < boardSize` of `board` and of `shipBoard` is
`WATER`, the scan cursor is (0,0) and `numShipsPlaced` is 0. -/
theorem newRound_reset (p : CleanPlayerV2) (r c : Int)
    (hr0 : 0 ≤ r) (hr : r < p.boardSize) (hc0 : 0 ≤ c) (hc : c < p.boardSize) :
    (newRound p).board r c = CharCode.WATER ∧
    (newRound p).shipBoard r c = CharCode.WATER ∧
    (newRound p).scanRow = 0 ∧ (newRound p).scanCol = 0 ∧
    (newRound p).numShipsPlaced = 0 ∧
    (newRound p).boardSize = p.boardSize := by
  unfold newRound
  have hin : 0 ≤ r ∧ r < p.boardSize ∧ 0 ≤ c ∧ c < p.boardSize := ⟨hr0, hr, hc0, hc⟩
  simp only [initializeBoard_apply, if_pos hin, and_self]

/-- Witness for `newRound_reset`: a round start after the player of
`sampleFleet2` (two ships placed) has also taken a `HIT` at (1,2) and moved
its cursor. -/
theorem newRound_reset_witness :
    (update (scan 3 sampleFleet2) (shotResult CharCode.HIT 1 2)).board 1 2 = CharCode.HIT ∧
    (update (scan 3 sampleFleet2) (shotResult CharCode.HIT 1 2)).shipBoard 1 2 = CharCode.SHIP ∧
    (update (scan 3 sampleFleet2) (shotResult CharCode.HIT 1 2)).scanCol = 3 ∧
    (update (scan 3 sampleFleet2) (shotResult CharCode.HIT 1 2)).numShipsPlaced = 2 ∧
    (newRound (update (scan 3 sampleFleet2) (shotResult CharCode.HIT 1 2))).board 1 2
      = CharCode.WATER ∧
    (newRound (update (scan 3 sampleFleet2) (shotResult CharCode.HIT 1 2))).shipBoard 1 2
      = CharCode.WATER ∧
    (newRound (update (scan 3 sampleFleet2) (shotResult CharCode.HIT 1 2))).scanRow = 0 ∧
    (newRound (update (scan 3 sampleFleet2) (shotResult CharCode.HIT 1 2))).scanCol = 0 ∧
    (newRound (update (scan 3 sampleFleet2) (shotResult CharCode.HIT 1 2))).numShipsPlaced = 0 :=
  have h := newRound_reset (update (scan 3 sampleFleet2) (shotResult CharCode.HIT 1 2)) 1 2
    (by decide) (by decide) (by decide) (by decide)
  ⟨rfl, rfl, rfl, rfl, h.1, h.2.1, h.2.2.1, h.2.2.2.1, h.2.2.2.2.1⟩

/-- C8 (as amended): the counters of `opponentShots` are set to 0 on the board
when the player is constructed, and `newRound` leaves every one of them as it
was: they are not reset at round start. -/
theorem newRound_opponentShots (n : Int) (mem p : CleanPlayerV2) :
    (∀ r c : Int, 0 ≤ r → r < n → 0 ≤ c → c < n → (construct n mem).opponentShots r c = 0) ∧
    (newRound p).opponentShots = p.opponentShots := by
  refine ⟨?_, rfl⟩
  intro r c hr0 hr hc0 hc
  unfold construct
  simp only [forLoop_fill]
  rw [if_pos (by omega)]

/-- Witness for `newRound_opponentShots`: the counter at (1,2) is 0 in a
player constructed for board size 4 and is still 1 when a round begins after
one opponent shot there. -/
theorem newRound_opponentShots_witness :
    (construct 4 sampleStorage).opponentShots 1 2 = 0 ∧
    (newRound (update (roundStart 4) (shotResult CharCode.OPPONENT_SHOT 1 2))).opponentShots
      = (update (roundStart 4) (shotResult CharCode.OPPONENT_SHOT 1 2)).opponentShots :=
  ⟨(newRound_opponentShots 4 sampleStorage
      (update (roundStart 4) (shotResult CharCode.OPPONENT_SHOT 1 2))).1 1 2
      (by decide) (by decide) (by decide) (by decide),
    (newRound_opponentShots 4 sampleStorage
      (update (roundStart 4) (shotResult CharCode.OPPONENT_SHOT 1 2))).2⟩

/-- C8 fails as stated: a player is constructed for board size 4, a round
begins, the opponent shoots at the on-board cell (1,2), the next round begins;
the counter at (1,2) is then 1, not 0. -/
theorem newRound_opponentShots_not_reset :
    (roundStart 4).isOnBoard 1 2 = true ∧
    (roundStart 4).opponentShots 1 2 = 0 ∧
    (newRound (update (roundStart 4) (shotResult CharCode.OPPONENT_SHOT 1 2))).opponentShots 1 2
      = 1 ∧
    (newRound (update (roundStart 4) (shotResult CharCode.OPPONENT_SHOT 1 2))).opponentShots 1 2
      ≠ 0 :=
  ⟨rfl, rfl, rfl, by decide⟩

theorem Grid.set_set {α : Type} (g : Grid α) (r c : Int) (v : α) :
    Grid.set (Grid.set g r c v) r c v = Grid.set g r c v := by
  funext r' c'
  unfold Grid.set
  split_ifs <;> rfl

/-- C9: applying a shot result is an overwrite and is idempotent.  For a
message of type `HIT`, `KILL` or `MISS` at an on-board cell, `update` leaves
that cell of `board` equal to the message type whatever it held, leaves every
other cell of `board` as it was, and applied twice gives the same player as
applied once. -/
theorem update_shot_result (p : CleanPlayerV2) (msg : Message)
    (ho : msg.messageType = CharCode.HIT ∨ msg.messageType = CharCode.KILL ∨
      msg.messageType = CharCode.MISS)
    (_hon : p.isOnBoard msg.row msg.col = true) :
    (update p msg).board msg.row msg.col = msg.messageType ∧
    (∀ r c : Int, (r, c) ≠ (msg.row, msg.col) → (update p msg).board r c = p.board r c) ∧
    update (update p msg) msg = update p msg := by
  have hu : update p msg = { p with board := Grid.set p.board msg.row msg.col msg.messageType } := by
    unfold update
    rcases ho with h | h | h <;> rw [h]
  have hu2 : update (update p msg) msg
      = { update p msg with
          board := Grid.set (update p msg).board msg.row msg.col msg.messageType } := by
    unfold update
    rcases ho with h | h | h <;> rw [h]
  refine ⟨?_, ?_, ?_⟩
  · rw [hu]
    simp only [Grid.set, and_self, if_true]
  · intro r c hne
    rw [hu]
    simp only [Grid.set]
    rw [if_neg]
    rintro ⟨h1, h2⟩
    exact hne (by rw [h1, h2])
  · rw [hu2, hu]
    simp only [Grid.set_set]

/-- Witness for `update_shot_result`: a `KILL` at (3,4) of `sampleBelief`,
where the cell held `HIT`; the `MISS` at (2,4) stays. -/
theorem update_shot_result_witness :
    sampleBelief.board 3 4 = CharCode.HIT ∧
    (update sampleBelief (shotResult CharCode.KILL 3 4)).board 3 4 = CharCode.KILL ∧
    (update sampleBelief (shotResult CharCode.KILL 3 4)).board 2 4 = sampleBelief.board 2 4 ∧
    update (update sampleBelief (shotResult CharCode.KILL 3 4)) (shotResult CharCode.KILL 3 4)
      = update sampleBelief (shotResult CharCode.KILL 3 4) :=
  have h := update_shot_result sampleBelief (shotResult CharCode.KILL 3 4)
    (Or.inr (Or.inl rfl)) rfl
  ⟨rfl, h.1, h.2.1 2 4 (by decide), h.2.2⟩

/-- The search loop reads only `board` and `boardSize`. -/
theorem searchLoop_congr (p q : CleanPlayerV2) (hb : q.board = p.board)
    (hn : q.boardSize = p.boardSize) (row col dr dc : Int) (fuel : Nat) (range : Int) :
    q.searchLoop row col dr dc fuel range = p.searchLoop row col dr dc fuel range := by
  induction fuel generalizing range with
  | zero => rfl
  | succ n ih =>
    rw [searchLoop, searchLoop, ih]
    simp only [isOnBoard, hb, hn]

theorem getFollowUpShot_congr (p q : CleanPlayerV2) (hb : q.board = p.board)
    (hn : q.boardSize = p.boardSize) (fuel : Nat) (row col : Int) :
    q.getFollowUpShot fuel row col = p.getFollowUpShot fuel row col := by
  unfold getFollowUpShot search
  simp only [searchLoop_congr p q hb hn]

/-- The cursor after `scan` depends only on the cursor before it and on
`boardSize`. -/
theorem scan_congr (S : Int) (p q : CleanPlayerV2) (hn : q.boardSize = p.boardSize)
    (hr : q.scanRow = p.scanRow) (hc : q.scanCol = p.scanCol) :
    (scan S q).scanRow = (scan S p).scanRow ∧ (scan S q).scanCol = (scan S p).scanCol := by
  unfold scan
  simp only [hn, hr, hc]
  split_ifs <;> exact ⟨rfl, rfl⟩

/-- The message `getMove` returns depends only on `board`, `boardSize` and the
scan cursor. -/
theorem getMove_congr (S : Int) (p q : CleanPlayerV2) (fuel : Nat) (hb : q.board = p.board)
    (hn : q.boardSize = p.boardSize) (hr : q.scanRow = p.scanRow)
    (hc : q.scanCol = p.scanCol) :
    (getMove S q fuel).map Prod.fst = (getMove S p fuel).map Prod.fst := by
  unfold getMove
  simp only [hb, hr, hc, getFollowUpShot_congr p q hb hn]
  split_ifs with h1 h2
  · rfl
  · cases p.getFollowUpShot fuel p.scanRow p.scanCol <;> rfl
  · simp only [Option.map_some', (scan_congr S p q hn hr hc).1, (scan_congr S p q hn hr hc).2]

/-- C10: an `OPPONENT_SHOT` message at an on-board cell adds exactly one to the
counter of that cell and changes nothing else: the other counters, `board`,
`shipBoard`, the scan cursor, `numShipsPlaced` and `boardSize` are as before,
and `getMove` returns the same message as without the notification. -/
theorem update_opponent_shot (S : Int) (p : CleanPlayerV2) (msg : Message) (fuel : Nat)
    (ht : msg.messageType = CharCode.OPPONENT_SHOT)
    (_hon : p.isOnBoard msg.row msg.col = true) :
    (update p msg).opponentShots msg.row msg.col = p.opponentShots msg.row msg.col + 1 ∧
    (∀ r c : Int, (r, c) ≠ (msg.row, msg.col) →
      (update p msg).opponentShots r c = p.opponentShots r c) ∧
    (update p msg).board = p.board ∧ (update p msg).shipBoard = p.shipBoard ∧
    (update p msg).scanRow = p.scanRow ∧ (update p msg).scanCol = p.scanCol ∧
    (update p msg).numShipsPlaced = p.numShipsPlaced ∧
    (update p msg).boardSize = p.boardSize ∧
    (getMove S (update p msg) fuel).map Prod.fst = (getMove S p fuel).map Prod.fst := by
  have hu : update p msg =
      { p with
        opponentShots :=
          Grid.set p.opponentShots msg.row msg.col (p.opponentShots msg.row msg.col + 1) } := by
    unfold update
    rw [ht]
  rw [hu]
  refine ⟨?_, ?_, rfl, rfl, rfl, rfl, rfl, rfl, ?_⟩
  · simp only [Grid.set, and_self, if_true]
  · intro r c hne
    simp only [Grid.set]
    rw [if_neg]
    rintro ⟨h1, h2⟩
    exact hne (by rw [h1, h2])
  · exact getMove_congr S p _ fuel rfl rfl rfl rfl

/-- Witness for `update_opponent_shot`: an opponent shot at (3,4) of
`sampleBelief`, whose cursor cell (0,0) is `WATER`. -/
theorem update_opponent_shot_witness :
    sampleBelief.opponentShots 3 4 = 0 ∧
    (update sampleBelief (shotResult CharCode.OPPONENT_SHOT 3 4)).opponentShots 3 4 = 0 + 1 ∧
    (update sampleBelief (shotResult CharCode.OPPONENT_SHOT 3 4)).opponentShots 2 4
      = sampleBelief.opponentShots 2 4 ∧
    (update sampleBelief (shotResult CharCode.OPPONENT_SHOT 3 4)).board = sampleBelief.board ∧
    (getMove 3 (update sampleBelief (shotResult CharCode.OPPONENT_SHOT 3 4)) 6).map Prod.fst
      = (getMove 3 sampleBelief 6).map Prod.fst :=
  have h := update_opponent_shot 3 sampleBelief (shotResult CharCode.OPPONENT_SHOT 3 4) 6 rfl rfl
  ⟨rfl, h.1, h.2.1 2 4 (by decide), h.2.2.1, h.2.2.2.2.2.2.2.2⟩

/-- C4 fails as stated: board size 10, `MIN_SHIP_SIZE` 3, play from a round
start with outcomes `HIT`, `MISS`, `HIT`, `KILL` (a ship on (0,0), (0,1),
(0,2)).  The shots are (0,0), (1,0), (0,1), (0,2), each at a `WATER` cell; the
fifth `getMove` returns (0,0) again, a cell that holds `HIT`. -/
theorem getMove_repeats_shot :
    (play 3 10 (roundStart 10)
        [CharCode.HIT, CharCode.MISS, CharCode.HIT, CharCode.KILL, CharCode.MISS]).map Prod.fst
      = some [(0, 0, CharCode.WATER), (1, 0, CharCode.WATER), (0, 1, CharCode.WATER),
          (0, 2, CharCode.WATER), (0, 0, CharCode.HIT)] := by
  rfl

/-- A successful search returns a `WATER` cell. -/
theorem search_true_water (p : CleanPlayerV2) (fuel : Nat) (row col dr dc r c : Int)
    (h : p.search fuel row col dr dc = some (true, r, c)) : p.board r c = CharCode.WATER := by
  rcases searchLoop_some p row col dr dc fuel 1 true r c h with h1 | ⟨-, k, -, -, -, -, hw, -⟩
  · exact absurd h1.1 (by decide)
  · exact hw

/-- What `getFollowUpShot` returns is the `WATER` cell of a successful search,
or the anchor with all four searches failed. -/
theorem getFollowUpShot_some (p : CleanPlayerV2) (fuel : Nat) (row col r c : Int)
    (h : p.getFollowUpShot fuel row col = some (r, c)) :
    (p.board r c = CharCode.WATER ∧
      ∃ dr dc : Int,
        ((dr = 1 ∧ dc = 0) ∨ (dr = 0 ∧ dc = 1) ∨ (dr = 0 ∧ dc = -1) ∨ (dr = -1 ∧ dc = 0)) ∧
        p.search fuel row col dr dc = some (true, r, c)) ∨
    (r = row ∧ c = col ∧
      p.search fuel row col 1 0 = some (false, row, col) ∧
      p.search fuel row col 0 1 = some (false, row, col) ∧
      p.search fuel row col 0 (-1) = some (false, row, col) ∧
      p.search fuel row col (-1) 0 = some (false, row, col)) := by
  unfold getFollowUpShot at h
  cases h1 : p.search fuel row col 1 0 with
  | none => rw [h1] at h; exact absurd h (by simp)
  | some x1 =>
    obtain ⟨b1, r1, c1⟩ := x1
    cases b1 with
    | true =>
      rw [h1] at h
      simp only [Option.some.injEq, Prod.mk.injEq] at h
      obtain ⟨rfl, rfl⟩ := h
      exact Or.inl ⟨search_true_water p fuel row col 1 0 _ _ h1, 1, 0, by simp, h1⟩
    | false =>
      obtain ⟨rfl, rfl⟩ := search_false p fuel row col 1 0 r1 c1 h1
      rw [h1] at h
      simp only at h
      cases h2 : p.search fuel r1 c1 0 1 with
      | none => rw [h2] at h; exact absurd h (by simp)
      | some x2 =>
        obtain ⟨b2, r2, c2⟩ := x2
        cases b2 with
        | true =>
          rw [h2] at h
          simp only [Option.some.injEq, Prod.mk.injEq] at h
          obtain ⟨rfl, rfl⟩ := h
          exact Or.inl ⟨search_true_water p fuel r1 c1 0 1 _ _ h2, 0, 1, by simp, h2⟩
        | false =>
          obtain ⟨rfl, rfl⟩ := search_false p fuel r1 c1 0 1 r2 c2 h2
          rw [h2] at h
          simp only at h
          cases h3 : p.search fuel r2 c2 0 (-1) with
          | none => rw [h3] at h; exact absurd h (by simp)
          | some x3 =>
            obtain ⟨b3, r3, c3⟩ := x3
            cases b3 with
            | true =>
              rw [h3] at h
              simp only [Option.some.injEq, Prod.mk.injEq] at h
              obtain ⟨rfl, rfl⟩ := h
              exact Or.inl ⟨search_true_water p fuel r2 c2 0 (-1) _ _ h3, 0, -1, by simp, h3⟩
            | false =>
              obtain ⟨rfl, rfl⟩ := search_false p fuel r2 c2 0 (-1) r3 c3 h3
              rw [h3] at h
              simp only at h
              cases h4 : p.search fuel r3 c3 (-1) 0 with
              | none => rw [h4] at h; exact absurd h (by simp)
              | some x4 =>
                obtain ⟨b4, r4, c4⟩ := x4
                rw [h4] at h
                simp only [Option.some.injEq, Prod.mk.injEq] at h
                obtain ⟨rfl, rfl⟩ := h
                cases b4 with
                | true =>
                  exact Or.inl ⟨search_true_water p fuel r3 c3 (-1) 0 _ _ h4, -1, 0, by simp, h4⟩
                | false =>
                  obtain ⟨e1, e2⟩ := search_false p fuel r3 c3 (-1) 0 _ _ h4
                  subst e1 e2
                  exact Or.inr ⟨rfl, rfl, rfl, rfl, rfl, rfl⟩

/-- `getMove` leaves `board` as it was. -/
theorem getMove_board (S : Int) (p : CleanPlayerV2) (fuel : Nat) (msg : Message)
    (p' : CleanPlayerV2) (h : getMove S p fuel = some (msg, p')) : p'.board = p.board := by
  unfold getMove at h
  simp only at h
  split_ifs at h with h1 h2
  · simp only [Option.some.injEq, Prod.mk.injEq] at h
    rw [← h.2]
  · cases hf : p.getFollowUpShot fuel p.scanRow p.scanCol with
    | none => rw [hf] at h; exact absurd h (by simp)
    | some rc =>
      rw [hf] at h
      simp only [Option.some.injEq, Prod.mk.injEq] at h
      rw [← h.2]
  · simp only [Option.some.injEq, Prod.mk.injEq] at h
    rw [← h.2]
    exact (scan_board S p).1

/-- When `getMove` returns a `WATER` cell. -/
theorem getMove_water_iff (S : Int) (p : CleanPlayerV2) (fuel : Nat) (msg : Message)
    (p' : CleanPlayerV2) (h : getMove S p fuel = some (msg, p')) :
    p.board msg.row msg.col = CharCode.WATER ↔
      (p.board p.scanRow p.scanCol = CharCode.WATER ∨
       (p.board p.scanRow p.scanCol = CharCode.HIT ∧
        ∃ dr dc r c : Int,
          ((dr = 1 ∧ dc = 0) ∨ (dr = 0 ∧ dc = 1) ∨ (dr = 0 ∧ dc = -1) ∨ (dr = -1 ∧ dc = 0)) ∧
          p.search fuel p.scanRow p.scanCol dr dc = some (true, r, c)) ∨
       (p.board p.scanRow p.scanCol ≠ CharCode.WATER ∧
        p.board p.scanRow p.scanCol ≠ CharCode.HIT ∧
        p.board (scan S p).scanRow (scan S p).scanCol = CharCode.WATER)) := by
  unfold getMove at h
  simp only at h
  split_ifs at h with h1 h2
  · simp only [Option.some.injEq, Prod.mk.injEq] at h
    rw [← h.1]
    simp only [h1, true_or]
  · cases hf : p.getFollowUpShot fuel p.scanRow p.scanCol with
    | none => rw [hf] at h; exact absurd h (by simp)
    | some rc =>
      obtain ⟨r, c⟩ := rc
      rw [hf] at h
      simp only [Option.some.injEq, Prod.mk.injEq] at h
      rw [← h.1]
      simp only
      rcases getFollowUpShot_some p fuel _ _ r c hf with ⟨hw, dr, dc, hd, hs⟩ | ⟨e1, e2, f1, f2, f3, f4⟩
      · constructor
        · intro _
          exact Or.inr (Or.inl ⟨h2, dr, dc, r, c, hd, hs⟩)
        · intro _
          exact hw
      · constructor
        · intro hw
          rw [e1, e2, h2] at hw
          exact absurd hw (by decide)
        · rintro (hw | ⟨-, dr, dc, r', c', hd, hs⟩ | ⟨-, hn, -⟩)
          · exact absurd hw h1
          · exfalso
            rcases hd with ⟨d1, d2⟩ | ⟨d1, d2⟩ | ⟨d1, d2⟩ | ⟨d1, d2⟩ <;> subst d1 d2
            · rw [f1] at hs; exact absurd hs (by simp)
            · rw [f2] at hs; exact absurd hs (by simp)
            · rw [f3] at hs; exact absurd hs (by simp)
            · rw [f4] at hs; exact absurd hs (by simp)
          · exact absurd h2 hn
  · simp only [Option.some.injEq, Prod.mk.injEq] at h
    rw [← h.1]
    simp only [h1, h2, ne_eq, not_false_eq_true, true_and, false_and, false_or]

/-- The `board` after `update` with a shot result. -/
theorem update_board_shot (p : CleanPlayerV2) (o : CharCode) (row col : Int)
    (ho : o = CharCode.HIT ∨ o = CharCode.KILL ∨ o = CharCode.MISS) :
    (update p (shotResult o row col)).board = Grid.set p.board row col o := by
  unfold update shotResult
  rcases ho with h | h | h <;> rw [h]

/-- Cells only leave `WATER` during play: a coordinate logged with state
`WATER` held `WATER` in the player the play started from. -/
theorem play_water (S : Int) (fuel : Nat) (outcomes : List CharCode)
    (hout : ∀ o ∈ outcomes, o = CharCode.HIT ∨ o = CharCode.KILL ∨ o = CharCode.MISS)
    (p : CleanPlayerV2) (log : List (Int × Int × CharCode)) (q : CleanPlayerV2)
    (h : play S fuel p outcomes = some (log, q)) :
    ∀ s ∈ log, s.2.2 = CharCode.WATER → p.board s.1 s.2.1 = CharCode.WATER := by
  induction outcomes generalizing p log with
  | nil =>
    simp only [play, Option.some.injEq, Prod.mk.injEq] at h
    intro s hs
    rw [← h.1] at hs
    exact absurd hs (List.not_mem_nil s)
  | cons o os ih =>
    rw [play] at h
    cases hm : getMove S p fuel with
    | none => rw [hm] at h; exact absurd h (by simp)
    | some x =>
      obtain ⟨shot, p1⟩ := x
      rw [hm] at h
      simp only at h
      cases hp : play S fuel (update p1 (shotResult o shot.row shot.col)) os with
      | none => rw [hp] at h; exact absurd h (by simp)
      | some y =>
        obtain ⟨log1, p2⟩ := y
        rw [hp] at h
        simp only [Option.some.injEq, Prod.mk.injEq] at h
        rw [h.2] at hp
        have ho := hout o (List.mem_cons_self o os)
        have hb := getMove_board S p fuel shot p1 hm
        have hu := update_board_shot p1 o shot.row shot.col ho
        intro s hs hw
        rw [← h.1] at hs
        rcases List.mem_cons.1 hs with e | hs1
        · rw [e] at hw ⊢
          exact hw
        · have h1 := ih (fun o' ho' => hout o' (List.mem_cons_of_mem o ho')) _ log1 hp s hs1 hw
          rw [hu] at h1
          unfold Grid.set at h1
          split_ifs at h1 with hc
          · rcases ho with e | e | e <;> rw [e] at h1 <;> exact absurd h1 (by decide)
          · rw [hb] at h1
            exact h1

/-- The coordinates logged by a play are pairwise distinct when each of them
was logged with state `WATER`. -/
theorem play_nodup (S : Int) (fuel : Nat) (outcomes : List CharCode)
    (hout : ∀ o ∈ outcomes, o = CharCode.HIT ∨ o = CharCode.KILL ∨ o = CharCode.MISS)
    (p : CleanPlayerV2) (log : List (Int × Int × CharCode)) (q : CleanPlayerV2)
    (h : play S fuel p outcomes = some (log, q))
    (hw : ∀ s ∈ log, s.2.2 = CharCode.WATER) :
    (log.map (fun s => (s.1, s.2.1))).Nodup := by
  induction outcomes generalizing p log with
  | nil =>
    simp only [play, Option.some.injEq, Prod.mk.injEq] at h
    rw [← h.1]
    exact List.nodup_nil
  | cons o os ih =>
    rw [play] at h
    cases hm : getMove S p fuel with
    | none => rw [hm] at h; exact absurd h (by simp)
    | some x =>
      obtain ⟨shot, p1⟩ := x
      rw [hm] at h
      simp only at h
      cases hp : play S fuel (update p1 (shotResult o shot.row shot.col)) os with
      | none => rw [hp] at h; exact absurd h (by simp)
      | some y =>
        obtain ⟨log1, p2⟩ := y
        rw [hp] at h
        simp only [Option.some.injEq, Prod.mk.injEq] at h
        rw [h.2] at hp
        have ho := hout o (List.mem_cons_self o os)
        have hout1 : ∀ o' ∈ os, o' = CharCode.HIT ∨ o' = CharCode.KILL ∨ o' = CharCode.MISS :=
          fun o' ho' => hout o' (List.mem_cons_of_mem o ho')
        rw [← h.1] at hw ⊢
        have hw1 : ∀ s ∈ log1, s.2.2 = CharCode.WATER :=
          fun s hs => hw s (List.mem_cons_of_mem _ hs)
        rw [List.map_cons, List.nodup_cons]
        refine ⟨?_, ih hout1 _ log1 hp hw1⟩
        intro hmem
        obtain ⟨s, hs, e⟩ := List.mem_map.1 hmem
        have h1 := play_water S fuel os hout1 _ log1 q hp s hs (hw1 s hs)
        simp only [Prod.mk.injEq] at e
        rw [update_board_shot p1 o shot.row shot.col ho, e.1, e.2] at h1
        simp only [Grid.set, and_self, if_true] at h1
        rcases ho with e' | e' | e' <;> rw [e'] at h1 <;> exact absurd h1 (by decide)

/-- C4 (as amended): in every player `q` reached by play with outcomes `HIT`,
`KILL`, `MISS`, the coordinate the next `getMove` returns is a cell that is
still `WATER` exactly when the cursor cell is `WATER`, or it is `HIT` and one
of the four searches from it succeeds, or it is neither and the cell one
`scan` step on is `WATER`; and the coordinates returned during the play are
pairwise distinct when each was `WATER` when it was returned. -/
theorem getMove_fresh (S : Int) (fuel : Nat) (p : CleanPlayerV2) (outcomes : List CharCode)
    (log : List (Int × Int × CharCode)) (q : CleanPlayerV2)
    (hout : ∀ o ∈ outcomes, o = CharCode.HIT ∨ o = CharCode.KILL ∨ o = CharCode.MISS)
    (hplay : play S fuel p outcomes = some (log, q)) :
    (∀ msg q', getMove S q fuel = some (msg, q') →
      (q.board msg.row msg.col = CharCode.WATER ↔
        (q.board q.scanRow q.scanCol = CharCode.WATER ∨
         (q.board q.scanRow q.scanCol = CharCode.HIT ∧
          ∃ dr dc r c : Int,
            ((dr = 1 ∧ dc = 0) ∨ (dr = 0 ∧ dc = 1) ∨ (dr = 0 ∧ dc = -1) ∨
              (dr = -1 ∧ dc = 0)) ∧
            q.search fuel q.scanRow q.scanCol dr dc = some (true, r, c)) ∨
         (q.board q.scanRow q.scanCol ≠ CharCode.WATER ∧
          q.board q.scanRow q.scanCol ≠ CharCode.HIT ∧
          q.board (scan S q).scanRow (scan S q).scanCol = CharCode.WATER)))) ∧
    ((∀ s ∈ log, s.2.2 = CharCode.WATER) → (log.map (fun s => (s.1, s.2.1))).Nodup) :=
  ⟨fun msg q' h => getMove_water_iff S q fuel msg q' h,
    fun hw => play_nodup S fuel outcomes hout p log q hplay hw⟩

/-- Witness for `getMove_fresh`: board size 6, `MIN_SHIP_SIZE` 3, outcomes
`HIT`, `MISS`, `HIT` from a round start.  The three shots were at `WATER`
cells and are distinct; the cursor cell (0,0) is `HIT`, the search Right
succeeds at (0,2), and that is the `WATER` cell the next `getMove` returns. -/
theorem getMove_fresh_witness :
    play 3 6 (roundStart 6) [CharCode.HIT, CharCode.MISS, CharCode.HIT]
      = some ([(0, 0, CharCode.WATER), (1, 0, CharCode.WATER), (0, 1, CharCode.WATER)],
          sampleHunt) ∧
    getMove 3 sampleHunt 6
      = some (Message.mk CharCode.SHOT 0 2 "Bang" Direction.None 1, sampleHunt) ∧
    sampleHunt.board 0 2 = CharCode.WATER ∧
    ([(0, 0, CharCode.WATER), (1, 0, CharCode.WATER), (0, 1, CharCode.WATER)].map
      (fun s : Int × Int × CharCode => (s.1, s.2.1))).Nodup :=
  have h := getMove_fresh 3 6 (roundStart 6) [CharCode.HIT, CharCode.MISS, CharCode.HIT]
    [(0, 0, CharCode.WATER), (1, 0, CharCode.WATER), (0, 1, CharCode.WATER)] sampleHunt
    (by decide) rfl
  ⟨rfl, rfl,
    (h.1 (Message.mk CharCode.SHOT 0 2 "Bang" Direction.None 1) sampleHunt rfl).2
      (Or.inr (Or.inl ⟨rfl, 0, 1, 0, 2, Or.inr (Or.inl ⟨rfl, rfl⟩), rfl⟩)),
    h.2 (by decide)⟩

/-- The cursor after `scan`, read off the body of the function. -/
theorem scan_cursor (S : Int) (p : CleanPlayerV2) :
    (scan S p).cursor =
      if p.scanCol + S ≥ p.boardSize then
        (if p.scanRow + 1 ≥ p.boardSize then 0 else p.scanRow + 1,
         if Int.tmod p.boardSize S = 0 then
           (if Int.tmod (p.scanCol + S) p.boardSize + 1 = S then 0
            else Int.tmod (p.scanCol + S) p.boardSize + 1)
         else Int.tmod (p.scanCol + S) p.boardSize)
      else (p.scanRow, p.scanCol + S) := by
  unfold scan cursor
  simp only
  split_ifs <;> rfl

theorem scan_boardSize (S : Int) (p : CleanPlayerV2) : (scan S p).boardSize = p.boardSize :=
  (scan_board S p).2.2.2.1

theorem scanTimes_boardSize (S : Int) (k : Nat) (p : CleanPlayerV2) :
    (scanTimes S k p).boardSize = p.boardSize := by
  induction k with
  | zero => rfl
  | succ k ih => rw [scanTimes, scan_boardSize, ih]

/-- C11: the scan advance rule.  For board size `N ≥ 1`, stride `S ≥ 1` and an
on-board cursor `(r, c)`: when `c + S < N` the row stays and the column becomes
`c + S`; otherwise the row becomes `r + 1`, or 0 when `r + 1 ≥ N`, and the
column becomes `w = (c + S) mod N`, replaced, only when `N` is a multiple of
`S`, by 0 if `w + 1 = S` and by `w + 1` otherwise. -/
theorem scan_rule (S : Int) (p : CleanPlayerV2)
    (hN : 1 ≤ p.boardSize) (hS : 1 ≤ S)
    (_hr0 : 0 ≤ p.scanRow) (_hr : p.scanRow < p.boardSize)
    (hc0 : 0 ≤ p.scanCol) (_hc : p.scanCol < p.boardSize) :
    (p.scanCol + S < p.boardSize →
      (scan S p).scanRow = p.scanRow ∧ (scan S p).scanCol = p.scanCol + S) ∧
    (¬ p.scanCol + S < p.boardSize →
      (scan S p).scanRow = (if p.scanRow + 1 ≥ p.boardSize then 0 else p.scanRow + 1) ∧
      (scan S p).scanCol =
        (if p.boardSize % S = 0 then
          (if (p.scanCol + S) % p.boardSize + 1 = S then 0
           else (p.scanCol + S) % p.boardSize + 1)
         else (p.scanCol + S) % p.boardSize)) := by
  have h := scan_cursor S p
  unfold cursor at h
  have e1 : Int.tmod (p.scanCol + S) p.boardSize = (p.scanCol + S) % p.boardSize :=
    Int.tmod_eq_emod (by omega) (by omega)
  have e2 : Int.tmod p.boardSize S = p.boardSize % S :=
    Int.tmod_eq_emod (by omega) (by omega)
  rw [e1, e2] at h
  constructor
  · intro hlt
    rw [if_neg (by omega)] at h
    exact ⟨congrArg Prod.fst h, congrArg Prod.snd h⟩
  · intro hge
    rw [if_pos (by omega)] at h
    exact ⟨congrArg Prod.fst h, congrArg Prod.snd h⟩

/-- Witness for `scan_rule`: board size 10, stride 2, cursor (0,8): the
column wraps to `(8 + 2) mod 10 = 0` and, 10 being a multiple of 2, moves on
to 1; the row becomes 1. -/
theorem scan_rule_witness :
    (scan 2 (scanTimes 2 4 (roundStart 10))).scanRow = 1 ∧
    (scan 2 (scanTimes 2 4 (roundStart 10))).scanCol = 1 :=
  have h := (scan_rule 2 (scanTimes 2 4 (roundStart 10)) (by decide) (by decide)
    (by decide) (by decide) (by decide) (by decide)).2 (by decide)
  ⟨h.1, h.2⟩

/-- C12 (as amended): board size 10, stride 2; six successive advances of
`scan` from (0,0) put the cursor at (0,2), (0,4), (0,6), (0,8), (1,1), (1,3). -/
theorem scan_example_sequence :
    (List.range 7).map (fun k => (scanTimes 2 k (roundStart 10)).cursor)
      = [(0, 0), (0, 2), (0, 4), (0, 6), (0, 8), (1, 1), (1, 3)] := by
  decide

/-- C12 fails as stated: board size 10, stride 2; the fifth advance from (0,0)
puts the cursor at (1,1), not (1,0), and the sixth at (1,3), not (1,2). -/
theorem scan_example_not_aligned :
    (roundStart 10).boardSize = 10 ∧ (roundStart 10).cursor = (0, 0) ∧
    (scanTimes 2 5 (roundStart 10)).cursor = (1, 1) ∧
    (scanTimes 2 5 (roundStart 10)).cursor ≠ (1, 0) ∧
    (scanTimes 2 6 (roundStart 10)).cursor = (1, 3) ∧
    (scanTimes 2 6 (roundStart 10)).cursor ≠ (1, 2) := by
  decide

theorem scanTimes_succ_cursor (S : Int) (k : Nat) (p : CleanPlayerV2) :
    (scanTimes S (k + 1) p).cursor = (scan S (scanTimes S k p)).cursor := rfl

/-- The remainder of `r + 1`, from the remainder of `r`. -/
theorem succ_emod (r S : Int) (hS : 1 ≤ S) :
    (r + 1) % S = if r % S + 1 = S then 0 else r % S + 1 := by
  have h1 := Int.emod_nonneg r (show S ≠ 0 by omega)
  have h2 := Int.emod_lt_of_pos r (show 0 < S by omega)
  have h3 := Int.emod_add_ediv r S
  split_ifs with h
  · have : r + 1 = S * (r / S + 1) := by rw [mul_add, mul_one]; omega
    rw [this]
    exact Int.mul_emod_right S _
  · have : r + 1 = (r % S + 1) + S * (r / S) := by omega
    rw [this, Int.add_mul_emod_self_left]
    exact Int.emod_eq_of_lt (by omega) (by omega)

/-- One step of `scan` in the aligned case, `S` dividing `N`: from an on-board
cursor whose column is congruent to its row modulo `S`, the step either stays
in the row, or enters the next row (row 0 after the last) at column
`row mod S`; the new cursor is on the board and again congruent. -/
theorem scan_step_aligned (S : Int) (p : CleanPlayerV2) (hS : 1 ≤ S)
    (hdvd : p.boardSize % S = 0)
    (hr0 : 0 ≤ p.scanRow) (hr : p.scanRow < p.boardSize)
    (hc0 : 0 ≤ p.scanCol) (hc : p.scanCol < p.boardSize)
    (hcong : p.scanCol % S = p.scanRow % S) :
    (0 ≤ (scan S p).scanRow ∧ (scan S p).scanRow < p.boardSize ∧
      0 ≤ (scan S p).scanCol ∧ (scan S p).scanCol < p.boardSize ∧
      (scan S p).scanCol % S = (scan S p).scanRow % S) ∧
    (p.scanCol + S < p.boardSize →
      (scan S p).scanRow = p.scanRow ∧ (scan S p).scanCol = p.scanCol + S) ∧
    (¬ p.scanCol + S < p.boardSize →
      (scan S p).scanRow = (if p.scanRow + 1 ≥ p.boardSize then 0 else p.scanRow + 1) ∧
      (scan S p).scanCol = (p.scanRow + 1) % S ∧
      (scan S p).scanCol = (scan S p).scanRow % S) := by
  have hN : 1 ≤ p.boardSize := by omega
  have hSN : S ≤ p.boardSize := by
    have := Int.le_of_dvd (by omega) (Int.dvd_of_emod_eq_zero hdvd)
    exact this
  have h := scan_cursor S p
  unfold cursor at h
  have e2 : Int.tmod p.boardSize S = p.boardSize % S :=
    Int.tmod_eq_emod (by omega) (by omega)
  rw [e2, if_pos hdvd] at h
  have hrS0 := Int.emod_nonneg p.scanRow (show S ≠ 0 by omega)
  have hrS := Int.emod_lt_of_pos p.scanRow (show 0 < S by omega)
  by_cases hlt : p.scanCol + S < p.boardSize
  · rw [if_neg (by omega)] at h
    have hrow : (scan S p).scanRow = p.scanRow := congrArg Prod.fst h
    have hcol : (scan S p).scanCol = p.scanCol + S := congrArg Prod.snd h
    refine ⟨?_, fun _ => ⟨hrow, hcol⟩, fun hn => absurd hlt hn⟩
    rw [hrow, hcol, Int.add_emod_self]
    exact ⟨hr0, hr, by omega, hlt, hcong⟩
  · rw [if_pos (by omega)] at h
    have hrow : (scan S p).scanRow = (if p.scanRow + 1 ≥ p.boardSize then 0 else p.scanRow + 1) :=
      congrArg Prod.fst h
    have hcol := congrArg Prod.snd h
    simp only at hcol
    -- the wrapped column is `c + S - N`, which is `r mod S`
    have hw : Int.tmod (p.scanCol + S) p.boardSize = p.scanCol + S - p.boardSize := by
      rw [Int.tmod_eq_emod (by omega) (by omega)]
      have : p.scanCol + S = (p.scanCol + S - p.boardSize) + p.boardSize := by omega
      rw [this, Int.add_emod_self]
      simp only [add_sub_cancel_right]
      exact Int.emod_eq_of_lt (by omega) (by omega)
    have hwS : p.scanCol + S - p.boardSize = p.scanRow % S := by
      have h1 : (p.scanCol + S - p.boardSize) % S = p.scanCol % S := by
        obtain ⟨m, hm⟩ := Int.dvd_of_emod_eq_zero hdvd
        have : p.scanCol + S - p.boardSize = p.scanCol + S * (1 - m) := by
          rw [hm]; ring
        rw [this, Int.add_mul_emod_self_left]
      rw [← hcong, ← h1]
      exact (Int.emod_eq_of_lt (by omega) (by omega)).symm
    rw [hw, hwS, ← succ_emod p.scanRow S hS] at hcol
    have hnew : (p.scanRow + 1) % S = (scan S p).scanRow % S := by
      rw [hrow]
      split_ifs with hwrap
      · have : p.scanRow + 1 = p.boardSize := by omega
        rw [this, hdvd]
        rfl
      · rfl
    have hc1 := Int.emod_nonneg (p.scanRow + 1) (show S ≠ 0 by omega)
    have hc2 := Int.emod_lt_of_pos (p.scanRow + 1) (show 0 < S by omega)
    refine ⟨⟨?_, ?_, by omega, by omega, ?_⟩, fun hn => absurd hn hlt,
      fun _ => ⟨hrow, hcol, by rw [hcol, hnew]⟩⟩
    · rw [hrow]; split_ifs <;> omega
    · rw [hrow]; split_ifs <;> omega
    · rw [hcol, ← hnew]
      exact Int.emod_emod_of_dvd _ (dvd_refl S)

/-- In the aligned case every cursor reached by `scan` from an on-board cursor
with column congruent to row modulo `S` is on the board and congruent. -/
theorem scanTimes_aligned (S : Int) (p : CleanPlayerV2) (hS : 1 ≤ S)
    (hdvd : p.boardSize % S = 0)
    (hr0 : 0 ≤ p.scanRow) (hr : p.scanRow < p.boardSize)
    (hc0 : 0 ≤ p.scanCol) (hc : p.scanCol < p.boardSize)
    (hcong : p.scanCol % S = p.scanRow % S) (k : Nat) :
    0 ≤ (scanTimes S k p).scanRow ∧ (scanTimes S k p).scanRow < p.boardSize ∧
    0 ≤ (scanTimes S k p).scanCol ∧ (scanTimes S k p).scanCol < p.boardSize ∧
    (scanTimes S k p).scanCol % S = (scanTimes S k p).scanRow % S := by
  induction k with
  | zero => exact ⟨hr0, hr, hc0, hc, hcong⟩
  | succ k ih =>
    have hb := scanTimes_boardSize S k p
    have h := (scan_step_aligned S (scanTimes S k p) hS (by rw [hb]; exact hdvd)
      ih.1 (by rw [hb]; exact ih.2.1) ih.2.2.1 (by rw [hb]; exact ih.2.2.2.1) ih.2.2.2.2).1
    rw [hb] at h
    exact h

/-- Within a row: from the row's entry column `r mod S`, `j` further advances
reach column `r mod S + j * S` as long as that column is on the board. -/
theorem scanTimes_in_row (S : Int) (p : CleanPlayerV2) (hS : 1 ≤ S)
    (hdvd : p.boardSize % S = 0)
    (hr0 : 0 ≤ p.scanRow) (hr : p.scanRow < p.boardSize)
    (hc0 : 0 ≤ p.scanCol) (hc : p.scanCol < p.boardSize)
    (hcong : p.scanCol % S = p.scanRow % S) (k0 : Nat) (r c0 : Int)
    (hk0 : (scanTimes S k0 p).cursor = (r, c0)) (j : Nat)
    (hj : c0 + j * S < p.boardSize) :
    (scanTimes S (k0 + j) p).cursor = (r, c0 + j * S) := by
  induction j with
  | zero => simpa using hk0
  | succ j ih =>
    have hjS : (0 : Int) ≤ j * S := by positivity
    have hlt : c0 + j * S < p.boardSize := by push_cast at hj; nlinarith
    have ih' := ih hlt
    have hb := scanTimes_boardSize S (k0 + j) p
    have hal := scanTimes_aligned S p hS hdvd hr0 hr hc0 hc hcong (k0 + j)
    unfold cursor at ih'
    simp only [Prod.mk.injEq] at ih'
    have hstep := (scan_step_aligned S (scanTimes S (k0 + j) p) hS (by rw [hb]; exact hdvd)
      hal.1 (by rw [hb]; exact hal.2.1) hal.2.2.1 (by rw [hb]; exact hal.2.2.2.1)
      hal.2.2.2.2).2.1 (by rw [hb, ih'.2]; push_cast at hj; linarith)
    rw [show k0 + (j + 1) = (k0 + j) + 1 by omega, scanTimes_succ_cursor]
    unfold cursor
    rw [hstep.1, hstep.2, ih'.1, ih'.2]
    push_cast
    congr 1
    ring

/-- Aligned case, `N = S * m`, start at (0,0): if the sweep of row `r` starts
at advance `k0` in column `r mod S`, then `m` advances later the cursor enters
the next row (row 0 after the last) at column `(r + 1) mod S`. -/
theorem scanTimes_next_row (S : Int) (p : CleanPlayerV2) (m : Nat) (hS : 1 ≤ S)
    (hm : p.boardSize = S * m) (hm1 : 1 ≤ m)
    (hrow : p.scanRow = 0) (hcol : p.scanCol = 0) (k0 : Nat) (r : Int)
    (hr0 : 0 ≤ r) (hr : r < p.boardSize)
    (hk0 : (scanTimes S k0 p).cursor = (r, r % S)) :
    (scanTimes S (k0 + m) p).cursor
      = (if r + 1 ≥ p.boardSize then 0 else r + 1, (r + 1) % S) := by
  have hdvd : p.boardSize % S = 0 := by rw [hm]; exact Int.mul_emod_right S m
  have hN : 1 ≤ p.boardSize := by omega
  have hrS0 := Int.emod_nonneg r (show S ≠ 0 by omega)
  have hrS := Int.emod_lt_of_pos r (show 0 < S by omega)
  have hcast : ((m - 1 : Nat) : Int) = (m : Int) - 1 := by omega
  have hlast : r % S + ((m - 1 : Nat) : Int) * S = r % S + p.boardSize - S := by
    rw [hcast, hm]; ring
  have hin := scanTimes_in_row S p hS hdvd (by omega) (by omega) (by omega) (by omega)
    (by rw [hrow, hcol]) k0 r (r % S) hk0 (m - 1) (by rw [hlast]; omega)
  have hb := scanTimes_boardSize S (k0 + (m - 1)) p
  have hal := scanTimes_aligned S p hS hdvd (by omega) (by omega) (by omega) (by omega)
    (by rw [hrow, hcol]) (k0 + (m - 1))
  unfold cursor at hin
  simp only [Prod.mk.injEq] at hin
  have hstep := (scan_step_aligned S (scanTimes S (k0 + (m - 1)) p) hS (by rw [hb]; exact hdvd)
    hal.1 (by rw [hb]; exact hal.2.1) hal.2.2.1 (by rw [hb]; exact hal.2.2.2.1)
    hal.2.2.2.2).2.2 (by rw [hb, hin.2, hlast]; omega)
  rw [show k0 + m = (k0 + (m - 1)) + 1 by omega, scanTimes_succ_cursor]
  unfold cursor
  rw [hstep.1, hstep.2.1, hin.1, hb]

/-- Aligned case, `N = S * m`, start at (0,0): the sweep of row `r` starts at
advance `r * m`, in column `r mod S`. -/
theorem scanTimes_row_start (S : Int) (p : CleanPlayerV2) (m : Nat) (hS : 1 ≤ S)
    (hm : p.boardSize = S * m) (hm1 : 1 ≤ m)
    (hrow : p.scanRow = 0) (hcol : p.scanCol = 0) (r : Nat) (hr : (r : Int) < p.boardSize) :
    (scanTimes S (r * m) p).cursor = ((r : Int), (r : Int) % S) := by
  induction r with
  | zero =>
    simp only [Nat.zero_mul, scanTimes, cursor, hrow, hcol, Nat.cast_zero, Int.zero_emod]
  | succ r ih =>
    have ih' := ih (by push_cast at hr; omega)
    have h := scanTimes_next_row S p m hS hm hm1 hrow hcol (r * m) r (by omega)
      (by push_cast at hr; omega) ih'
    rw [show (r + 1) * m = r * m + m by ring, h]
    push_cast at hr ⊢
    rw [if_neg (by omega)]

/-- Aligned case, `N = S * m`, start at (0,0): the cursor at advance
`r * m + j`, for a row `r < N` and `j < m`, is `(r, r mod S + j * S)`. -/
theorem scanTimes_closed_form (S : Int) (p : CleanPlayerV2) (m : Nat) (hS : 1 ≤ S)
    (hm : p.boardSize = S * m) (hm1 : 1 ≤ m)
    (hrow : p.scanRow = 0) (hcol : p.scanCol = 0) (r j : Nat)
    (hr : (r : Int) < p.boardSize) (hj : j < m) :
    (scanTimes S (r * m + j) p).cursor = ((r : Int), (r : Int) % S + j * S) := by
  have hdvd : p.boardSize % S = 0 := by rw [hm]; exact Int.mul_emod_right S m
  have hN : 1 ≤ p.boardSize := by omega
  have hrS := Int.emod_lt_of_pos (r : Int) (show 0 < S by omega)
  refine scanTimes_in_row S p hS hdvd (by omega) (by omega) (by omega) (by omega)
    (by rw [hrow, hcol]) (r * m) r ((r : Int) % S)
    (scanTimes_row_start S p m hS hm hm1 hrow hcol r hr) j ?_
  have h1 : ((j : Int) + 1) * S ≤ (m : Int) * S :=
    mul_le_mul_of_nonneg_right (by exact_mod_cast hj) (by omega)
  rw [hm]
  nlinarith

/-- Aligned case, `N = S * m`, start at (0,0): after `N * m` advances the
cursor is back at (0,0). -/
theorem scanTimes_cycle (S : Int) (p : CleanPlayerV2) (m : Nat) (hS : 1 ≤ S)
    (hm : p.boardSize = S * m) (hm1 : 1 ≤ m)
    (hrow : p.scanRow = 0) (hcol : p.scanCol = 0) :
    (scanTimes S (p.boardSize.toNat * m) p).cursor = (0, 0) := by
  have hdvd : p.boardSize % S = 0 := by rw [hm]; exact Int.mul_emod_right S m
  have hmS : (1 : Int) * 1 ≤ S * m := mul_le_mul hS (by exact_mod_cast hm1) (by omega) (by omega)
  have hN : 1 ≤ p.boardSize := by omega
  have hn : ((p.boardSize.toNat - 1 : Nat) : Int) = p.boardSize - 1 := by omega
  have h0 := scanTimes_row_start S p m hS hm hm1 hrow hcol (p.boardSize.toNat - 1) (by omega)
  have h := scanTimes_next_row S p m hS hm hm1 hrow hcol ((p.boardSize.toNat - 1) * m)
    ((p.boardSize.toNat - 1 : Nat) : Int) (by omega) (by omega) h0
  have e : (p.boardSize.toNat - 1) * m + m = p.boardSize.toNat * m := by
    have : p.boardSize.toNat = (p.boardSize.toNat - 1) + 1 := by omega
    nth_rewrite 2 [this]
    ring
  rw [e, hn] at h
  rw [h, if_pos (by omega), sub_add_cancel, hdvd]

/-- Aligned case, `N = S * m`, start at (0,0): every on-board cell whose
column is congruent to its row modulo `S` is the cursor after fewer than
`N * m` advances. -/
theorem scanTimes_reaches (S : Int) (p : CleanPlayerV2) (m : Nat) (hS : 1 ≤ S)
    (hm : p.boardSize = S * m) (hm1 : 1 ≤ m)
    (hrow : p.scanRow = 0) (hcol : p.scanCol = 0) (r c : Int)
    (hr0 : 0 ≤ r) (hr : r < p.boardSize) (hc0 : 0 ≤ c) (hc : c < p.boardSize)
    (hcong : c % S = r % S) :
    ∃ k : Nat, k < p.boardSize.toNat * m ∧ (scanTimes S k p).cursor = (r, c) := by
  have hj0 : 0 ≤ c / S := Int.ediv_nonneg hc0 (by omega)
  have hjm : c / S < m := Int.ediv_lt_of_lt_mul (by omega) (by rw [mul_comm, ← hm]; exact hc)
  have hjm' : (c / S).toNat < m := by omega
  have hrn : ((r.toNat : Nat) : Int) = r := Int.toNat_of_nonneg hr0
  refine ⟨r.toNat * m + (c / S).toNat, ?_, ?_⟩
  · have h1 : r.toNat + 1 ≤ p.boardSize.toNat := by omega
    calc r.toNat * m + (c / S).toNat < r.toNat * m + m := by omega
      _ = (r.toNat + 1) * m := by ring
      _ ≤ p.boardSize.toNat * m := Nat.mul_le_mul_right m h1
  · rw [scanTimes_closed_form S p m hS hm hm1 hrow hcol r.toNat (c / S).toNat
      (by rw [hrn]; exact hr) hjm']
    rw [hrn, Int.toNat_of_nonneg hj0, ← hcong]
    congr 1
    have := Int.emod_add_ediv c S
    linarith [mul_comm S (c / S)]

/-- The cursor after `k` advances depends only on the cursor and the board
size at the start. -/
theorem scanTimes_congr (S : Int) (p q : CleanPlayerV2) (hn : q.boardSize = p.boardSize)
    (hc : q.cursor = p.cursor) (k : Nat) :
    (scanTimes S k q).cursor = (scanTimes S k p).cursor := by
  induction k with
  | zero => exact hc
  | succ k ih =>
    unfold cursor at ih
    simp only [Prod.mk.injEq] at ih
    have h := scan_congr S (scanTimes S k p) (scanTimes S k q)
      (by rw [scanTimes_boardSize, scanTimes_boardSize, hn]) ih.1 ih.2
    rw [scanTimes_succ_cursor, scanTimes_succ_cursor]
    unfold cursor
    rw [h.1, h.2]

theorem scanTimes_add (S : Int) (j k : Nat) (p : CleanPlayerV2) :
    scanTimes S (j + k) p = scanTimes S j (scanTimes S k p) := by
  induction j with
  | zero => rw [Nat.zero_add]; rfl
  | succ j ih => rw [show j + 1 + k = (j + k) + 1 by omega, scanTimes, ih, scanTimes]

/-- In the aligned case the number `N * N / S` of advances of a cycle is
`N * m`, and so is `ceil(N / S) * N`. -/
theorem aligned_counts (N S : Int) (m : Nat) (hS : 1 ≤ S) (hm : N = S * m) :
    N * N / S = (N.toNat * m : Nat) ∧ (N + S - 1) / S * N = (N.toNat * m : Nat) := by
  have hN0 : 0 ≤ N := by rw [hm]; positivity
  have e1 : ((N.toNat * m : Nat) : Int) = N * m := by
    push_cast
    rw [Int.toNat_of_nonneg hN0]
  constructor
  · rw [e1]
    have : N * N = S * (N * m) := by
      nth_rewrite 1 [hm]
      ring
    rw [this]
    exact Int.mul_ediv_cancel_left _ (by omega)
  · rw [e1]
    have h2 : (N + S - 1) / S = m := by
      have : N + S - 1 = (S - 1) + S * m := by rw [hm]; ring
      rw [this, Int.add_mul_ediv_left _ _ (show S ≠ 0 by omega),
        Int.ediv_eq_zero_of_lt (by omega) (by omega)]
      ring
    rw [h2]
    ring

/-- A board size `N ≥ 1` that is a multiple of `S ≥ 1` is `S * m` for a
natural number `m ≥ 1`. -/
theorem aligned_factor (N S : Int) (hN : 1 ≤ N) (hS : 1 ≤ S) (hdvd : N % S = 0) :
    ∃ m : Nat, N = S * m ∧ 1 ≤ m := by
  obtain ⟨m', hm'⟩ := Int.dvd_of_emod_eq_zero hdvd
  have hpos : 0 < m' := by
    by_contra hneg
    have : S * m' ≤ 0 := mul_nonpos_of_nonneg_of_nonpos (by omega) (by omega)
    omega
  refine ⟨m'.toNat, ?_, by omega⟩
  rw [Int.toNat_of_nonneg (by omega)]
  exact hm'

/-- Aligned case, `N = S * m`, start at (0,0): the cursors of the first
`N * m` advances are pairwise different. -/
theorem scanTimes_injective (S : Int) (p : CleanPlayerV2) (m : Nat) (hS : 1 ≤ S)
    (hm : p.boardSize = S * m) (hm1 : 1 ≤ m)
    (hrow : p.scanRow = 0) (hcol : p.scanCol = 0) (j k : Nat)
    (hj : j < p.boardSize.toNat * m) (hk : k < p.boardSize.toNat * m)
    (h : (scanTimes S j p).cursor = (scanTimes S k p).cursor) : j = k := by
  have hmS : (1 : Int) * 1 ≤ S * m := mul_le_mul hS (by exact_mod_cast hm1) (by omega) (by omega)
  have hN : 1 ≤ p.boardSize := by omega
  have hdj : j / m < p.boardSize.toNat := Nat.div_lt_of_lt_mul (by rw [Nat.mul_comm]; exact hj)
  have hdk : k / m < p.boardSize.toNat := Nat.div_lt_of_lt_mul (by rw [Nat.mul_comm]; exact hk)
  have hmj : j % m < m := Nat.mod_lt j (by omega)
  have hmk : k % m < m := Nat.mod_lt k (by omega)
  have ej : j / m * m + j % m = j := by rw [Nat.mul_comm]; exact Nat.div_add_mod j m
  have ek : k / m * m + k % m = k := by rw [Nat.mul_comm]; exact Nat.div_add_mod k m
  have cj := scanTimes_closed_form S p m hS hm hm1 hrow hcol (j / m) (j % m) (by omega) hmj
  have ck := scanTimes_closed_form S p m hS hm hm1 hrow hcol (k / m) (k % m) (by omega) hmk
  rw [ej] at cj
  rw [ek] at ck
  rw [cj, ck] at h
  simp only [Prod.mk.injEq] at h
  have h1 : j / m = k / m := by exact_mod_cast h.1
  have h2 : ((j % m : Nat) : Int) * S = ((k % m : Nat) : Int) * S := by
    have := h.2
    rw [h.1] at this
    linarith
  have h3 : ((j % m : Nat) : Int) = ((k % m : Nat) : Int) :=
    Int.eq_of_mul_eq_mul_right (by omega) h2
  have h4 : j % m = k % m := by exact_mod_cast h3
  rw [← ej, ← ek, h1, h4]

/-- Among `S` consecutive integers from `a` one is congruent to `b` modulo
`S`. -/
theorem exists_congruent_in_run (a b S : Int) (hS : 1 ≤ S) :
    ∃ i : Int, 0 ≤ i ∧ i < S ∧ (a + i) % S = b % S := by
  refine ⟨(b - a) % S, Int.emod_nonneg _ (by omega), Int.emod_lt_of_pos _ (by omega), ?_⟩
  rw [Int.add_emod_emod]
  congr 1
  ring

set_option maxRecDepth 100000 in
/-- C13 fails as stated: board size 10, stride 3, so `ceil(10 / 3) * 10 = 40`;
the position (2,3) is reached by the 41st advance from (0,0) and by none of
the first 40. -/
theorem scan_coverage_bound_fails :
    (roundStart 10).boardSize = 10 ∧ (roundStart 10).cursor = (0, 0) ∧
    ((10 : Int) + 3 - 1) / 3 * 10 = 40 ∧
    (scanTimes 3 41 (roundStart 10)).cursor = (2, 3) ∧
    ∀ j : Nat, j ≤ 40 → (scanTimes 3 j (roundStart 10)).cursor ≠ (2, 3) := by
  decide

/-- C14 (as amended): when the board size `N ≥ 1` is a multiple of the stride
`S ≥ 1`, repeatedly advancing `scan` from (0,0) places the cursor on every
cell `(r, c)` of the board with `c mod S = r mod S`, and on no other cell; on
every cell of the board when `S = 1`. -/
theorem scan_coverage_aligned (S : Int) (p : CleanPlayerV2)
    (hN : 1 ≤ p.boardSize) (hS : 1 ≤ S) (hdvd : p.boardSize % S = 0)
    (hrow : p.scanRow = 0) (hcol : p.scanCol = 0) :
    (∀ r c : Int, 0 ≤ r → r < p.boardSize → 0 ≤ c → c < p.boardSize → c % S = r % S →
      ∃ k : Nat, (scanTimes S k p).cursor = (r, c)) ∧
    (∀ k : Nat,
      0 ≤ (scanTimes S k p).scanRow ∧ (scanTimes S k p).scanRow < p.boardSize ∧
      0 ≤ (scanTimes S k p).scanCol ∧ (scanTimes S k p).scanCol < p.boardSize ∧
      (scanTimes S k p).scanCol % S = (scanTimes S k p).scanRow % S) ∧
    (S = 1 → ∀ r c : Int, 0 ≤ r → r < p.boardSize → 0 ≤ c → c < p.boardSize →
      ∃ k : Nat, (scanTimes S k p).cursor = (r, c)) := by
  obtain ⟨m, hm, hm1⟩ := aligned_factor p.boardSize S hN hS hdvd
  have reach : ∀ r c : Int, 0 ≤ r → r < p.boardSize → 0 ≤ c → c < p.boardSize →
      c % S = r % S → ∃ k : Nat, (scanTimes S k p).cursor = (r, c) := by
    intro r c hr0 hr hc0 hc hcong
    obtain ⟨k, -, hk⟩ := scanTimes_reaches S p m hS hm hm1 hrow hcol r c hr0 hr hc0 hc hcong
    exact ⟨k, hk⟩
  refine ⟨reach, ?_, ?_⟩
  · intro k
    exact scanTimes_aligned S p hS hdvd (by omega) (by omega) (by omega) (by omega)
      (by rw [hrow, hcol]) k
  · intro h1 r c hr0 hr hc0 hc
    exact reach r c hr0 hr hc0 hc (by rw [h1, Int.emod_one, Int.emod_one])

/-- Witness for `scan_coverage_aligned`: board size 10, stride 2; the cell
(3,7) is reached, and the cursor after 23 advances has column congruent to
row modulo 2. -/
theorem scan_coverage_aligned_witness :
    (∃ k : Nat, (scanTimes 2 k (roundStart 10)).cursor = (3, 7)) ∧
    (scanTimes 2 23 (roundStart 10)).scanCol % 2 = (scanTimes 2 23 (roundStart 10)).scanRow % 2 :=
  have h := scan_coverage_aligned 2 (roundStart 10) (by decide) (by decide) (by decide) rfl rfl
  ⟨h.1 3 7 (by decide) (by decide) (by decide) (by decide) (by decide), (h.2.1 23).2.2.2.2⟩

/-- C14 fails as stated: board size 10 is a multiple of stride 2, and the
on-board cell (0,1) is the cursor after no number of advances from (0,0). -/
theorem scan_coverage_misses_cell :
    (roundStart 10).boardSize % 2 = 0 ∧ (roundStart 10).cursor = (0, 0) ∧
    (roundStart 10).isOnBoard 0 1 = true ∧
    ∀ k : Nat, (scanTimes 2 k (roundStart 10)).cursor ≠ (0, 1) := by
  refine ⟨by decide, rfl, rfl, ?_⟩
  intro k hk
  have h := (scanTimes_aligned 2 (roundStart 10) (by decide) (by decide) (by decide)
    (by decide) (by decide) (by decide) (by decide) k).2.2.2.2
  unfold cursor at hk
  simp only [Prod.mk.injEq] at hk
  rw [hk.1, hk.2] at h
  exact absurd h (by decide)

/-- C18: successive row sweeps are offset in the aligned case.  When the board
size `N ≥ 1` is a multiple of the stride `S ≥ 2`, every position reached by
advancing `scan` from (0,0) has `col mod S = row mod S`; and whenever an
advance changes the row, the new row is entered at column `row mod S`, which
differs from the entry column of the row just left. -/
theorem scan_rows_offset (S : Int) (p : CleanPlayerV2)
    (hN : 1 ≤ p.boardSize) (hS : 2 ≤ S) (hdvd : p.boardSize % S = 0)
    (hrow : p.scanRow = 0) (hcol : p.scanCol = 0) (k : Nat) :
    (scanTimes S k p).scanCol % S = (scanTimes S k p).scanRow % S ∧
    ((scanTimes S (k + 1) p).scanRow ≠ (scanTimes S k p).scanRow →
      (scanTimes S (k + 1) p).scanCol = (scanTimes S (k + 1) p).scanRow % S ∧
      (scanTimes S (k + 1) p).scanCol ≠ (scanTimes S k p).scanRow % S) := by
  have hal := scanTimes_aligned S p (by omega) hdvd (by omega) (by omega) (by omega) (by omega)
    (by rw [hrow, hcol]) k
  have hb := scanTimes_boardSize S k p
  have hstep := scan_step_aligned S (scanTimes S k p) (by omega) (by rw [hb]; exact hdvd)
    hal.1 (by rw [hb]; exact hal.2.1) hal.2.2.1 (by rw [hb]; exact hal.2.2.2.1) hal.2.2.2.2
  refine ⟨hal.2.2.2.2, ?_⟩
  intro hne
  have e : scanTimes S (k + 1) p = scan S (scanTimes S k p) := rfl
  rw [e] at hne ⊢
  by_cases hlt : (scanTimes S k p).scanCol + S < (scanTimes S k p).boardSize
  · exact absurd (hstep.2.1 hlt).1 hne
  · obtain ⟨-, h2, h3⟩ := hstep.2.2 hlt
    refine ⟨h3, ?_⟩
    rw [h2, succ_emod _ S (by omega)]
    have h0 := Int.emod_nonneg (scanTimes S k p).scanRow (show S ≠ 0 by omega)
    split_ifs <;> omega

/-- Witness for `scan_rows_offset`: board size 10, stride 2; the fifth advance
leaves row 0, entered at column 0, and enters row 1 at column 1. -/
theorem scan_rows_offset_witness :
    (scanTimes 2 4 (roundStart 10)).cursor = (0, 8) ∧
    (scanTimes 2 5 (roundStart 10)).cursor = (1, 1) ∧
    (scanTimes 2 (4 + 1) (roundStart 10)).scanCol
      = (scanTimes 2 (4 + 1) (roundStart 10)).scanRow % 2 ∧
    (scanTimes 2 (4 + 1) (roundStart 10)).scanCol ≠ (scanTimes 2 4 (roundStart 10)).scanRow % 2 :=
  have h := (scan_rows_offset 2 (roundStart 10) (by decide) (by decide) (by decide) rfl rfl 4).2
    (by decide)
  ⟨rfl, rfl, h.1, h.2⟩

/-- C20: when the stride `S ≥ 1` divides the board size `N ≥ 1`, the positions
reached by advancing `scan` from (0,0) are exactly the on-board cells with
`c mod S = r mod S`; the cursor is back at (0,0) after `N * N / S` advances,
the positions repeat with that period, the positions of one period are
pairwise different and are all the positions reached; and every horizontal
and every vertical run of `S` consecutive on-board cells contains a position
that is reached. -/
theorem scan_hunt_pattern (S : Int) (p : CleanPlayerV2)
    (hN : 1 ≤ p.boardSize) (hS : 1 ≤ S) (hdvd : p.boardSize % S = 0)
    (hrow : p.scanRow = 0) (hcol : p.scanCol = 0) :
    (∀ r c : Int, (∃ k : Nat, (scanTimes S k p).cursor = (r, c)) ↔
      (0 ≤ r ∧ r < p.boardSize ∧ 0 ≤ c ∧ c < p.boardSize ∧ c % S = r % S)) ∧
    (scanTimes S (p.boardSize * p.boardSize / S).toNat p).cursor = (0, 0) ∧
    (∀ k : Nat, (scanTimes S (k + (p.boardSize * p.boardSize / S).toNat) p).cursor
      = (scanTimes S k p).cursor) ∧
    (∀ j k : Nat, j < k → (k : Int) < p.boardSize * p.boardSize / S →
      (scanTimes S j p).cursor ≠ (scanTimes S k p).cursor) ∧
    (∀ k : Nat, ∃ j : Nat, (j : Int) < p.boardSize * p.boardSize / S ∧
      (scanTimes S j p).cursor = (scanTimes S k p).cursor) ∧
    (∀ r c : Int, 0 ≤ r → r < p.boardSize → 0 ≤ c → c + S ≤ p.boardSize →
      ∃ i : Int, 0 ≤ i ∧ i < S ∧ ∃ k : Nat, (scanTimes S k p).cursor = (r, c + i)) ∧
    (∀ r c : Int, 0 ≤ r → r + S ≤ p.boardSize → 0 ≤ c → c < p.boardSize →
      ∃ i : Int, 0 ≤ i ∧ i < S ∧ ∃ k : Nat, (scanTimes S k p).cursor = (r + i, c)) := by
  obtain ⟨m, hm, hm1⟩ := aligned_factor p.boardSize S hN hS hdvd
  have hcount := (aligned_counts p.boardSize S m hS hm).1
  have hT : (p.boardSize * p.boardSize / S).toNat = p.boardSize.toNat * m := by
    rw [hcount]; exact Int.toNat_ofNat _
  have hal := scanTimes_aligned S p hS hdvd (by omega) (by omega) (by omega) (by omega)
    (by rw [hrow, hcol])
  have reach := scanTimes_reaches S p m hS hm hm1 hrow hcol
  have hcyc := scanTimes_cycle S p m hS hm hm1 hrow hcol
  refine ⟨?_, ?_, ?_, ?_, ?_, ?_, ?_⟩
  · intro r c
    constructor
    · rintro ⟨k, hk⟩
      have h := hal k
      unfold cursor at hk
      simp only [Prod.mk.injEq] at hk
      rw [hk.1, hk.2] at h
      exact h
    · rintro ⟨hr0, hr, hc0, hc, hcong⟩
      obtain ⟨k, -, hk⟩ := reach r c hr0 hr hc0 hc hcong
      exact ⟨k, hk⟩
  · rw [hT]
    exact hcyc
  · intro k
    rw [hT, scanTimes_add]
    exact scanTimes_congr S p _ (scanTimes_boardSize S _ p)
      (by rw [hcyc]; unfold cursor; rw [hrow, hcol]) k
  · intro j k hjk hk heq
    rw [hcount] at hk
    have hk' : k < p.boardSize.toNat * m := by exact_mod_cast hk
    have := scanTimes_injective S p m hS hm hm1 hrow hcol j k (by omega) hk' heq
    omega
  · intro k
    have h := hal k
    obtain ⟨j, hj, hreach⟩ := reach _ _ h.1 h.2.1 h.2.2.1 h.2.2.2.1 h.2.2.2.2
    refine ⟨j, ?_, hreach⟩
    rw [hcount]
    exact_mod_cast hj
  · intro r c hr0 hr hc0 hc
    obtain ⟨i, hi0, hi, hcong⟩ := exists_congruent_in_run c r S hS
    obtain ⟨k, -, hk⟩ := reach r (c + i) hr0 hr (by omega) (by omega) hcong
    exact ⟨i, hi0, hi, k, hk⟩
  · intro r c hr0 hr hc0 hc
    obtain ⟨i, hi0, hi, hcong⟩ := exists_congruent_in_run r c S hS
    obtain ⟨k, -, hk⟩ := reach (r + i) c (by omega) (by omega) hc0 hc hcong.symm
    exact ⟨i, hi0, hi, k, hk⟩

/-- Witness for `scan_hunt_pattern`: board size 10, stride 2; a cycle has
`10 * 10 / 2 = 50` advances, and the horizontal run (4,5), (4,6) contains a
position that is reached. -/
theorem scan_hunt_pattern_witness :
    ((roundStart 10).boardSize * (roundStart 10).boardSize / 2).toNat = 50 ∧
    (scanTimes 2 ((roundStart 10).boardSize * (roundStart 10).boardSize / 2).toNat
      (roundStart 10)).cursor = (0, 0) ∧
    (∃ i : Int, 0 ≤ i ∧ i < 2 ∧ ∃ k : Nat, (scanTimes 2 k (roundStart 10)).cursor = (4, 5 + i)) :=
  have h := scan_hunt_pattern 2 (roundStart 10) (by decide) (by decide) (by decide) rfl rfl
  ⟨by decide, h.2.1, h.2.2.2.2.2.1 4 5 (by decide) (by decide) (by decide) (by decide)⟩

/-- The loop of `placeShip` skips every attempt whose position collides. -/
theorem placeLoop_skip (p : CleanPlayerV2) (shipName : String) (length : Int)
    (fails : List (Nat × Nat × Nat)) (more : List Nat)
    (hfail : ∀ t ∈ fails,
      p.positionOk (p.chooseValues length t.1 t.2.1 t.2.2).1
        (p.chooseValues length t.1 t.2.1 t.2.2).2.1 length
        (p.chooseValues length t.1 t.2.1 t.2.2).2.2 = false) :
    p.placeLoop shipName length (drawsOf fails ++ more) = p.placeLoop shipName length more := by
  induction fails with
  | nil => rfl
  | cons t ts ih =>
    obtain ⟨a, b, c⟩ := t
    have h := hfail (a, b, c) (List.mem_cons_self _ _)
    simp only at h
    rw [drawsOf, List.cons_append, List.cons_append, List.cons_append, placeLoop]
    simp only [h, Bool.false_eq_true, if_false]
    exact ih (fun t ht => hfail t (List.mem_cons_of_mem _ ht))

/-- C15 (as amended): `placeShip(L)` with `L ≤ N` returns at the first
sampling attempt whose position is collision-free, after exactly that many
attempts, whatever their number; it has not returned as long as every attempt
so far collided.  No bound on the number of attempts holds. -/
theorem placeShip_attempts (p : CleanPlayerV2) (length : Int)
    (fails : List (Nat × Nat × Nat)) (rand0 rand1 rand2 : Nat) (rest : List Nat)
    (hL : length ≤ p.boardSize)
    (hfail : ∀ t ∈ fails,
      p.positionOk (p.chooseValues length t.1 t.2.1 t.2.2).1
        (p.chooseValues length t.1 t.2.1 t.2.2).2.1 length
        (p.chooseValues length t.1 t.2.1 t.2.2).2.2 = false) :
    p.placeShip length (drawsOf fails) = none ∧
    (p.positionOk (p.chooseValues length rand0 rand1 rand2).1
        (p.chooseValues length rand0 rand1 rand2).2.1 length
        (p.chooseValues length rand0 rand1 rand2).2.2 = true →
      p.placeShip length (drawsOf fails ++ rand0 :: rand1 :: rand2 :: rest) =
        some (PlaceResult.placed (Message.mk CharCode.PLACE_SHIP
            (p.chooseValues length rand0 rand1 rand2).1
            (p.chooseValues length rand0 rand1 rand2).2.1
            (("Ship" ++ toString p.numShipsPlaced).take 9)
            (p.chooseValues length rand0 rand1 rand2).2.2 length),
          markShip { p with numShipsPlaced := p.numShipsPlaced + 1 }
            (p.chooseValues length rand0 rand1 rand2).1
            (p.chooseValues length rand0 rand1 rand2).2.1 length
            (p.chooseValues length rand0 rand1 rand2).2.2,
          rest)) := by
  constructor
  · unfold placeShip
    rw [if_neg (by omega)]
    have h := placeLoop_skip p (("Ship" ++ toString p.numShipsPlaced).take 9) length fails []
      hfail
    rw [List.append_nil] at h
    rw [h, placeLoop]
    intro a b c r hr
    exact absurd hr (by simp)
  · intro hok
    unfold placeShip
    rw [if_neg (by omega)]
    rw [placeLoop_skip p _ length fails _ hfail, placeLoop]
    simp only [hok, if_true]

/-- Witness for `placeShip_attempts`: on `sampleFleet1` (board size 4) the
vertical position at (1,2) collides 17 times in a row, more often than the
board has cells; the horizontal position at (0,0) sampled next is free. -/
theorem placeShip_attempts_witness :
    sampleFleet1.placeShip 3 (drawsOf (List.replicate 17 (3, 1, 2))) = none ∧
    sampleFleet1.placeShip 3 (drawsOf (List.replicate 17 (3, 1, 2)) ++ 0 :: 0 :: 0 :: [5]) =
      some (PlaceResult.placed (Message.mk CharCode.PLACE_SHIP 0 0
          (("Ship" ++ toString sampleFleet1.numShipsPlaced).take 9) Direction.Horizontal 3),
        sampleFleet2, [5]) :=
  have h := placeShip_attempts sampleFleet1 3 (List.replicate 17 (3, 1, 2)) 0 0 0 [5]
    (by decide)
    (fun t ht => by rw [List.eq_of_mem_replicate ht]; rfl)
  ⟨h.1, h.2 rfl⟩

/-- C15 fails as stated: board size 4, so `N * N = 16`; a ship of length 3 on
`sampleFleet1`, where the row 0 is free.  After 17 sampling attempts, all at
the occupied vertical position (1,2), `placeShip` has not returned; it returns
at the 18th attempt. -/
theorem placeShip_unbounded :
    sampleFleet1.boardSize * sampleFleet1.boardSize = 16 ∧
    (List.replicate 17 ((3, 1, 2) : Nat × Nat × Nat)).length = 17 ∧
    (sampleFleet1.placeShip 3 (drawsOf (List.replicate 17 (3, 1, 2)))).isNone = true ∧
    (sampleFleet1.placeShip 3
      (drawsOf (List.replicate 17 (3, 1, 2) ++ [(0, 0, 0)]))).isSome = true := by
  refine ⟨by decide, by decide, by rfl, by rfl⟩

/-- From any anchor, on the board or not, each of the four searches returns
within `boardSize + 1` turns of its loop. -/
theorem search_returns_any (p : CleanPlayerV2) (fuel : Nat) (row col dr dc : Int)
    (hN : 0 ≤ p.boardSize) (hfuel : p.boardSize + 1 ≤ fuel)
    (hd : (dr = 1 ∧ dc = 0) ∨ (dr = 0 ∧ dc = 1) ∨ (dr = 0 ∧ dc = -1) ∨ (dr = -1 ∧ dc = 0)) :
    ∃ x, p.search fuel row col dr dc = some x := by
  obtain ⟨n, rfl⟩ : ∃ n, fuel = n + 1 := ⟨fuel - 1, by omega⟩
  unfold search
  push_cast at hfuel
  by_cases hfirst : p.isOnBoard (row + dr * 1) (col + dc * 1) = true
  · rw [isOnBoard_iff] at hfirst
    rcases hd with ⟨h1, h2⟩ | ⟨h1, h2⟩ | ⟨h1, h2⟩ | ⟨h1, h2⟩ <;> subst h1 h2
    · refine searchLoop_returns p row col 1 0 (p.boardSize - row) ?_ n 1 (by omega)
      intro i hi
      rw [isOnBoard_iff] at hi
      omega
    · refine searchLoop_returns p row col 0 1 (p.boardSize - col) ?_ n 1 (by omega)
      intro i hi
      rw [isOnBoard_iff] at hi
      omega
    · refine searchLoop_returns p row col 0 (-1) (col + 1) ?_ n 1 (by omega)
      intro i hi
      rw [isOnBoard_iff] at hi
      omega
    · refine searchLoop_returns p row col (-1) 0 (row + 1) ?_ n 1 (by omega)
      intro i hi
      rw [isOnBoard_iff] at hi
      omega
  · rw [searchLoop]
    simp only [hfirst, Bool.not_false, if_true]
    exact ⟨_, rfl⟩

/-- C16: the search in one direction.  For a `board` that holds only `WATER`,
`HIT`, `KILL` and `MISS` on the board, any anchor and a cardinal direction:
if for some `k ≥ 1` the cells at distances `1 .. k-1` are on the board and
`HIT` and the cell at distance `k` is on the board and `WATER`, the search
succeeds and returns exactly that cell; if there is no such `k` it fails and
hands the anchor back; so it succeeds if and only if there is such a `k`. -/
theorem search_characterisation (p : CleanPlayerV2) (fuel : Nat) (row col dr dc : Int)
    (hN : 0 ≤ p.boardSize) (hfuel : p.boardSize + 1 ≤ fuel)
    (hd : (dr = 1 ∧ dc = 0) ∨ (dr = 0 ∧ dc = 1) ∨ (dr = 0 ∧ dc = -1) ∨ (dr = -1 ∧ dc = 0))
    (hgrid : ∀ r c : Int, p.isOnBoard r c = true →
      p.board r c = CharCode.WATER ∨ p.board r c = CharCode.HIT ∨
      p.board r c = CharCode.KILL ∨ p.board r c = CharCode.MISS) :
    (∀ k : Int, 1 ≤ k →
      (∀ i : Int, 1 ≤ i → i < k →
        p.isOnBoard (row + dr * i) (col + dc * i) = true ∧
        p.board (row + dr * i) (col + dc * i) = CharCode.HIT) →
      p.isOnBoard (row + dr * k) (col + dc * k) = true →
      p.board (row + dr * k) (col + dc * k) = CharCode.WATER →
      p.search fuel row col dr dc = some (true, row + dr * k, col + dc * k)) ∧
    ((¬ ∃ k : Int, 1 ≤ k ∧
        (∀ i : Int, 1 ≤ i → i < k →
          p.isOnBoard (row + dr * i) (col + dc * i) = true ∧
          p.board (row + dr * i) (col + dc * i) = CharCode.HIT) ∧
        p.isOnBoard (row + dr * k) (col + dc * k) = true ∧
        p.board (row + dr * k) (col + dc * k) = CharCode.WATER) →
      p.search fuel row col dr dc = some (false, row, col)) ∧
    ((∃ r c : Int, p.search fuel row col dr dc = some (true, r, c)) ↔
      ∃ k : Int, 1 ≤ k ∧
        (∀ i : Int, 1 ≤ i → i < k →
          p.isOnBoard (row + dr * i) (col + dc * i) = true ∧
          p.board (row + dr * i) (col + dc * i) = CharCode.HIT) ∧
        p.isOnBoard (row + dr * k) (col + dc * k) = true ∧
        p.board (row + dr * k) (col + dc * k) = CharCode.WATER) := by
  have succ : ∀ k : Int, 1 ≤ k →
      (∀ i : Int, 1 ≤ i → i < k →
        p.isOnBoard (row + dr * i) (col + dc * i) = true ∧
        p.board (row + dr * i) (col + dc * i) = CharCode.HIT) →
      p.isOnBoard (row + dr * k) (col + dc * k) = true →
      p.board (row + dr * k) (col + dc * k) = CharCode.WATER →
      p.search fuel row col dr dc = some (true, row + dr * k, col + dc * k) := by
    intro k hk hrun hon hw
    have hk' : (1 : Int) + ((k - 1).toNat : Nat) = k := by omega
    have key := searchLoop_run p row col dr dc (k - 1).toNat fuel 1
    rw [hk'] at key
    unfold search
    refine key ?_ (fun i hi1 hi2 => hrun i hi1 hi2) hon hw
    -- the cell at distance `k` is on the board, and so is the one at distance 1
    have h1 : p.isOnBoard (row + dr * 1) (col + dc * 1) = true := by
      by_cases e : k = 1
      · rw [e] at hon; exact hon
      · exact (hrun 1 (le_refl _) (by omega)).1
    rw [isOnBoard_iff] at hon h1
    rcases hd with ⟨d1, d2⟩ | ⟨d1, d2⟩ | ⟨d1, d2⟩ | ⟨d1, d2⟩ <;> subst d1 d2 <;> omega
  have conv : ∀ r c : Int, p.search fuel row col dr dc = some (true, r, c) →
      ∃ k : Int, 1 ≤ k ∧
        (∀ i : Int, 1 ≤ i → i < k →
          p.isOnBoard (row + dr * i) (col + dc * i) = true ∧
          p.board (row + dr * i) (col + dc * i) = CharCode.HIT) ∧
        p.isOnBoard (row + dr * k) (col + dc * k) = true ∧
        p.board (row + dr * k) (col + dc * k) = CharCode.WATER := by
    intro r c h
    rcases searchLoop_some p row col dr dc fuel 1 true r c h with h1 | ⟨-, k, hk, hr, hc, hon, hw, hall⟩
    · exact absurd h1.1 (by decide)
    · refine ⟨k, hk, ?_, by rw [← hr, ← hc]; exact hon, by rw [← hr, ← hc]; exact hw⟩
      intro i hi1 hi2
      obtain ⟨ho, n1, n2, n3⟩ := hall i hi1 hi2
      refine ⟨ho, ?_⟩
      rcases hgrid _ _ ho with g | g | g | g
      · exact absurd g n1
      · exact g
      · exact absurd g n3
      · exact absurd g n2
  refine ⟨succ, ?_, ?_⟩
  · intro hno
    obtain ⟨⟨b, r, c⟩, hx⟩ := search_returns_any p fuel row col dr dc hN hfuel hd
    cases b with
    | true => exact absurd (conv r c hx) hno
    | false =>
      obtain ⟨e1, e2⟩ := search_false p fuel row col dr dc r c hx
      rw [hx, e1, e2]
  · constructor
    · rintro ⟨r, c, h⟩
      exact conv r c h
    · rintro ⟨k, hk, hrun, hon, hw⟩
      exact ⟨_, _, succ k hk hrun hon hw⟩

/-- Witness for `search_characterisation`: in `sampleHunt` (board size 6) the
search Right from (0,0) passes the `HIT` at (0,1) and returns the `WATER` cell
(0,2) at distance 2. -/
theorem search_characterisation_witness :
    sampleHunt.board 0 1 = CharCode.HIT ∧ sampleHunt.board 0 2 = CharCode.WATER ∧
    sampleHunt.search 7 0 0 0 1 = some (true, 0 + 0 * 2, 0 + 1 * 2) :=
  ⟨rfl, rfl,
    (search_characterisation sampleHunt 7 0 0 0 1 (by decide) (by decide)
      (Or.inr (Or.inl ⟨rfl, rfl⟩))
      (fun r c h => by
        rw [isOnBoard_iff] at h
        have hb : sampleHunt.boardSize = 6 := rfl
        rw [hb] at h
        obtain ⟨h1, h2, h3, h4⟩ := h
        interval_cases r <;> interval_cases c <;> decide)).1 2 (by decide)
      (fun i h1 h2 => by
        have : i = 1 := by omega
        subst this
        exact ⟨rfl, rfl⟩)
      rfl rfl⟩

/-- C17: the targeting search terminates within the board dimension.  From an
on-board anchor, `N` turns of the loop of `search` are enough for each of the
four directions to return (the loop examines at most `N` cells), hence for
`getFollowUpShot` to return; and with the cursor on the board `getMove`
returns. -/
theorem search_terminates (S : Int) (p : CleanPlayerV2) (fuel : Nat) (row col : Int)
    (_hN : 1 ≤ p.boardSize) (hfuel : p.boardSize ≤ fuel)
    (hon : p.isOnBoard row col = true) :
    (∀ dr dc : Int,
      ((dr = 1 ∧ dc = 0) ∨ (dr = 0 ∧ dc = 1) ∨ (dr = 0 ∧ dc = -1) ∨ (dr = -1 ∧ dc = 0)) →
      ∃ x, p.search fuel row col dr dc = some x) ∧
    (∃ rc, p.getFollowUpShot fuel row col = some rc) ∧
    (p.isOnBoard p.scanRow p.scanCol = true → ∃ shot, getMove S p fuel = some shot) := by
  refine ⟨fun dr dc hd => search_returns p fuel row col dr dc hon hfuel hd,
    (getFollowUpShot_first p fuel row col).2.2.2.2.2 hon hfuel, ?_⟩
  intro hcur
  unfold getMove
  simp only
  split_ifs with h1 h2
  · exact ⟨_, rfl⟩
  · obtain ⟨⟨r, c⟩, hf⟩ := (getFollowUpShot_first p fuel p.scanRow p.scanCol).2.2.2.2.2 hcur hfuel
    rw [hf]
    exact ⟨_, rfl⟩
  · exact ⟨_, rfl⟩

/-- Witness for `search_terminates`: in `sampleHunt` (board size 6) with 6
turns of fuel, the search Right from the cursor cell (0,0) returns, and so do
`getFollowUpShot` and `getMove`. -/
theorem search_terminates_witness :
    (∃ x, sampleHunt.search 6 0 0 0 1 = some x) ∧
    (∃ rc, sampleHunt.getFollowUpShot 6 0 0 = some rc) ∧
    (∃ shot, getMove 3 sampleHunt 6 = some shot) :=
  have h := search_terminates 3 sampleHunt 6 0 0 (by decide) (by decide) rfl
  ⟨h.1 0 1 (Or.inr (Or.inl ⟨rfl, rfl⟩)), h.2.1, h.2.2 rfl⟩

/-- The cursor after `scan` is on the board when it was before. -/
theorem scan_onBoard (S : Int) (p : CleanPlayerV2) (hN : 1 ≤ p.boardSize) (hS : 1 ≤ S)
    (hr0 : 0 ≤ p.scanRow) (hr : p.scanRow < p.boardSize)
    (hc0 : 0 ≤ p.scanCol) (hc : p.scanCol < p.boardSize) :
    0 ≤ (scan S p).scanRow ∧ (scan S p).scanRow < p.boardSize ∧
    0 ≤ (scan S p).scanCol ∧ (scan S p).scanCol < p.boardSize := by
  have h := scan_cursor S p
  unfold cursor at h
  have e1 : Int.tmod (p.scanCol + S) p.boardSize = (p.scanCol + S) % p.boardSize :=
    Int.tmod_eq_emod (by omega) (by omega)
  have e2 : Int.tmod p.boardSize S = p.boardSize % S :=
    Int.tmod_eq_emod (by omega) (by omega)
  have hw0 := Int.emod_nonneg (p.scanCol + S) (show p.boardSize ≠ 0 by omega)
  have hw1 := Int.emod_lt_of_pos (p.scanCol + S) (show 0 < p.boardSize by omega)
  rw [e1, e2] at h
  by_cases hlt : p.scanCol + S < p.boardSize
  · rw [if_neg (by omega)] at h
    have hrow : (scan S p).scanRow = p.scanRow := congrArg Prod.fst h
    have hcol : (scan S p).scanCol = p.scanCol + S := congrArg Prod.snd h
    rw [hrow, hcol]
    omega
  · rw [if_pos (by omega)] at h
    have hrow : (scan S p).scanRow = (if p.scanRow + 1 ≥ p.boardSize then 0 else p.scanRow + 1) :=
      congrArg Prod.fst h
    have hcol := congrArg Prod.snd h
    simp only at hcol
    have hrow' : 0 ≤ (scan S p).scanRow ∧ (scan S p).scanRow < p.boardSize := by
      rw [hrow]; split_ifs <;> omega
    refine ⟨hrow'.1, hrow'.2, ?_⟩
    rw [hcol]
    by_cases hdvd : p.boardSize % S = 0
    · rw [if_pos hdvd]
      have hSN : S ≤ p.boardSize := Int.le_of_dvd (by omega) (Int.dvd_of_emod_eq_zero hdvd)
      have hw : (p.scanCol + S) % p.boardSize = p.scanCol + S - p.boardSize := by
        have : p.scanCol + S = (p.scanCol + S - p.boardSize) + p.boardSize := by omega
        rw [this, Int.add_emod_self]
        simp only [add_sub_cancel_right]
        exact Int.emod_eq_of_lt (by omega) (by omega)
      rw [hw]
      split_ifs <;> omega
    · rw [if_neg hdvd]
      omega

theorem update_frame (p : CleanPlayerV2) (msg : Message) :
    (update p msg).boardSize = p.boardSize ∧ (update p msg).scanRow = p.scanRow ∧
    (update p msg).scanCol = p.scanCol := by
  unfold update
  split <;> exact ⟨rfl, rfl, rfl⟩

/-- A successful search returns an on-board cell. -/
theorem search_true_onBoard (p : CleanPlayerV2) (fuel : Nat) (row col dr dc r c : Int)
    (h : p.search fuel row col dr dc = some (true, r, c)) : p.isOnBoard r c = true := by
  rcases searchLoop_some p row col dr dc fuel 1 true r c h with h1 | ⟨-, k, -, -, -, hon, -, -⟩
  · exact absurd h1.1 (by decide)
  · exact hon

/-- With the cursor on the board, the shot `getMove` returns is on the board
and so is the cursor afterwards. -/
theorem getMove_onBoard (S : Int) (p : CleanPlayerV2) (fuel : Nat)
    (hN : 1 ≤ p.boardSize) (hS : 1 ≤ S)
    (hcur : p.isOnBoard p.scanRow p.scanCol = true)
    (msg : Message) (p' : CleanPlayerV2) (h : getMove S p fuel = some (msg, p')) :
    p'.boardSize = p.boardSize ∧ p'.isOnBoard p'.scanRow p'.scanCol = true ∧
    p.isOnBoard msg.row msg.col = true := by
  unfold getMove at h
  simp only at h
  split_ifs at h with h1 h2
  · simp only [Option.some.injEq, Prod.mk.injEq] at h
    rw [← h.1, ← h.2]
    exact ⟨rfl, hcur, hcur⟩
  · cases hf : p.getFollowUpShot fuel p.scanRow p.scanCol with
    | none => rw [hf] at h; exact absurd h (by simp)
    | some rc =>
      obtain ⟨r, c⟩ := rc
      rw [hf] at h
      simp only [Option.some.injEq, Prod.mk.injEq] at h
      rw [← h.1, ← h.2]
      refine ⟨rfl, hcur, ?_⟩
      rcases getFollowUpShot_some p fuel _ _ r c hf with ⟨-, dr, dc, -, hs⟩ | ⟨e1, e2, -⟩
      · exact search_true_onBoard p fuel _ _ dr dc r c hs
      · simp only [e1, e2]
        exact hcur
  · simp only [Option.some.injEq, Prod.mk.injEq] at h
    rw [isOnBoard_iff] at hcur
    have hs := scan_onBoard S p hN hS hcur.1 hcur.2.1 hcur.2.2.1 hcur.2.2.2
    have hb := scan_boardSize S p
    rw [← h.1, ← h.2]
    refine ⟨hb, ?_, ?_⟩
    · rw [isOnBoard_iff, hb]; exact hs
    · simp only
      rw [isOnBoard_iff]; exact hs

/-- During play from a player with the cursor on the board, every shot and
the cursor stay on the board. -/
theorem play_onBoard (S : Int) (fuel : Nat) (outcomes : List CharCode) (p : CleanPlayerV2)
    (hN : 1 ≤ p.boardSize) (hS : 1 ≤ S)
    (hcur : p.isOnBoard p.scanRow p.scanCol = true)
    (log : List (Int × Int × CharCode)) (q : CleanPlayerV2)
    (h : play S fuel p outcomes = some (log, q)) :
    q.boardSize = p.boardSize ∧ q.isOnBoard q.scanRow q.scanCol = true ∧
    ∀ s ∈ log, p.isOnBoard s.1 s.2.1 = true := by
  induction outcomes generalizing p log with
  | nil =>
    simp only [play, Option.some.injEq, Prod.mk.injEq] at h
    rw [← h.1, ← h.2]
    exact ⟨rfl, hcur, fun s hs => absurd hs (List.not_mem_nil s)⟩
  | cons o os ih =>
    rw [play] at h
    cases hm : getMove S p fuel with
    | none => rw [hm] at h; exact absurd h (by simp)
    | some x =>
      obtain ⟨shot, p1⟩ := x
      rw [hm] at h
      simp only at h
      cases hp : play S fuel (update p1 (shotResult o shot.row shot.col)) os with
      | none => rw [hp] at h; exact absurd h (by simp)
      | some y =>
        obtain ⟨log1, p2⟩ := y
        rw [hp] at h
        simp only [Option.some.injEq, Prod.mk.injEq] at h
        rw [h.2] at hp
        obtain ⟨hb1, hc1, hshot⟩ := getMove_onBoard S p fuel hN hS hcur shot p1 hm
        obtain ⟨ub, ur, uc⟩ := update_frame p1 (shotResult o shot.row shot.col)
        have hcur2 : (update p1 (shotResult o shot.row shot.col)).isOnBoard
            (update p1 (shotResult o shot.row shot.col)).scanRow
            (update p1 (shotResult o shot.row shot.col)).scanCol = true := by
          rw [isOnBoard_iff] at hc1 ⊢
          rw [ub, ur, uc]
          exact hc1
        obtain ⟨hb2, hc2, hlog⟩ := ih _ (by rw [ub, hb1]; exact hN) hcur2 log1 hp
        refine ⟨by rw [hb2, ub, hb1], hc2, ?_⟩
        intro s hs
        rw [← h.1] at hs
        rcases List.mem_cons.1 hs with e | hs1
        · rw [e]; exact hshot
        · have := hlog s hs1
          rw [isOnBoard_iff] at this ⊢
          rw [ub, hb1] at this
          exact this

/-- The search loop reads `board` only at cells on the board: two players of
the same board size whose boards agree on the board give the same result. -/
theorem searchLoop_congr_onBoard (p q : CleanPlayerV2) (hn : q.boardSize = p.boardSize)
    (hb : ∀ r c : Int, p.isOnBoard r c = true → q.board r c = p.board r c)
    (row col dr dc : Int) (fuel : Nat) (range : Int) :
    q.searchLoop row col dr dc fuel range = p.searchLoop row col dr dc fuel range := by
  have hon : ∀ r c : Int, q.isOnBoard r c = p.isOnBoard r c := by
    intro r c
    unfold isOnBoard
    rw [hn]
  induction fuel generalizing range with
  | zero => rfl
  | succ n ih =>
    rw [searchLoop, searchLoop, ih, hon]
    by_cases h : p.isOnBoard (row + dr * range) (col + dc * range) = true
    · rw [hb _ _ h]
    · simp only [h, Bool.not_false, if_true]

/-- With the cursor on the board, the message `getMove` returns depends on
`board` only through its cells on the board. -/
theorem getMove_congr_onBoard (S : Int) (p q : CleanPlayerV2) (fuel : Nat)
    (hcur : p.isOnBoard p.scanRow p.scanCol = true)
    (hn : q.boardSize = p.boardSize) (hr : q.scanRow = p.scanRow) (hc : q.scanCol = p.scanCol)
    (hb : ∀ r c : Int, p.isOnBoard r c = true → q.board r c = p.board r c) :
    (getMove S q fuel).map Prod.fst = (getMove S p fuel).map Prod.fst := by
  have hf : q.getFollowUpShot fuel p.scanRow p.scanCol
      = p.getFollowUpShot fuel p.scanRow p.scanCol := by
    unfold getFollowUpShot search
    simp only [searchLoop_congr_onBoard p q hn hb]
  unfold getMove
  simp only [hr, hc, hb _ _ hcur, hf]
  split_ifs with h1 h2
  · rfl
  · cases p.getFollowUpShot fuel p.scanRow p.scanCol <;> rfl
  · simp only [Option.map_some', (scan_congr S p q hn hr hc).1, (scan_congr S p q hn hr hc).2]

/-- C19: the scan cursor never leaves the board and every shot is on the
board.  For `N ≥ 1`, `S ≥ 1` and a cursor with `0 ≤ row, col < N`: the cursor
after `scan` and after `getMove` is again in that range, and so is the
coordinate `getMove` returns; the same holds all along a play; and what
`getMove` returns depends on `board` only through cells with
`0 ≤ r, c < N`, the cells it indexes. -/
theorem cursor_stays_on_board (S : Int) (p : CleanPlayerV2) (fuel : Nat)
    (hN : 1 ≤ p.boardSize) (hS : 1 ≤ S)
    (hr0 : 0 ≤ p.scanRow) (hr : p.scanRow < p.boardSize)
    (hc0 : 0 ≤ p.scanCol) (hc : p.scanCol < p.boardSize) :
    (0 ≤ (scan S p).scanRow ∧ (scan S p).scanRow < p.boardSize ∧
      0 ≤ (scan S p).scanCol ∧ (scan S p).scanCol < p.boardSize) ∧
    (∀ msg p', getMove S p fuel = some (msg, p') →
      (0 ≤ p'.scanRow ∧ p'.scanRow < p.boardSize ∧ 0 ≤ p'.scanCol ∧ p'.scanCol < p.boardSize) ∧
      (0 ≤ msg.row ∧ msg.row < p.boardSize ∧ 0 ≤ msg.col ∧ msg.col < p.boardSize)) ∧
    (∀ outcomes log q, play S fuel p outcomes = some (log, q) →
      (0 ≤ q.scanRow ∧ q.scanRow < p.boardSize ∧ 0 ≤ q.scanCol ∧ q.scanCol < p.boardSize) ∧
      ∀ s ∈ log, 0 ≤ s.1 ∧ s.1 < p.boardSize ∧ 0 ≤ s.2.1 ∧ s.2.1 < p.boardSize) ∧
    (∀ q : CleanPlayerV2, q.boardSize = p.boardSize → q.scanRow = p.scanRow →
      q.scanCol = p.scanCol →
      (∀ r c : Int, 0 ≤ r → r < p.boardSize → 0 ≤ c → c < p.boardSize →
        q.board r c = p.board r c) →
      (getMove S q fuel).map Prod.fst = (getMove S p fuel).map Prod.fst) := by
  have hcur : p.isOnBoard p.scanRow p.scanCol = true := by
    rw [isOnBoard_iff]; exact ⟨hr0, hr, hc0, hc⟩
  refine ⟨scan_onBoard S p hN hS hr0 hr hc0 hc, ?_, ?_, ?_⟩
  · intro msg p' h
    obtain ⟨hb, h1, h2⟩ := getMove_onBoard S p fuel hN hS hcur msg p' h
    rw [isOnBoard_iff] at h1 h2
    rw [hb] at h1
    exact ⟨h1, h2⟩
  · intro outcomes log q h
    obtain ⟨hb, h1, h2⟩ := play_onBoard S fuel outcomes p hN hS hcur log q h
    rw [isOnBoard_iff, hb] at h1
    refine ⟨h1, ?_⟩
    intro s hs
    have := h2 s hs
    rw [isOnBoard_iff] at this
    exact this
  · intro q hn hqr hqc hb
    refine getMove_congr_onBoard S p q fuel hcur hn hqr hqc ?_
    intro r c hon
    rw [isOnBoard_iff] at hon
    exact hb r c hon.1 hon.2.1 hon.2.2.1 hon.2.2.2

/-- Witness for `cursor_stays_on_board`: `sampleHunt`, board size 6, stride 3,
cursor (0,0); `scan` moves the cursor to (0,3) and `getMove` shoots at
(0,2). -/
theorem cursor_stays_on_board_witness :
    (scan 3 sampleHunt).cursor = (0, 3) ∧
    (0 ≤ (scan 3 sampleHunt).scanRow ∧ (scan 3 sampleHunt).scanRow < sampleHunt.boardSize ∧
      0 ≤ (scan 3 sampleHunt).scanCol ∧ (scan 3 sampleHunt).scanCol < sampleHunt.boardSize) ∧
    (0 ≤ (0 : Int) ∧ (0 : Int) < sampleHunt.boardSize ∧
      0 ≤ (2 : Int) ∧ (2 : Int) < sampleHunt.boardSize) :=
  have h := cursor_stays_on_board 3 sampleHunt 6 (by decide) (by decide) (by decide)
    (by decide) (by decide) (by decide)
  ⟨rfl, h.1,
    (h.2.1 (Message.mk CharCode.SHOT 0 2 "Bang" Direction.None 1) sampleHunt rfl).2⟩

/-- Every cursor reached by `scan` from an on-board cursor is on the board. -/
theorem scanTimes_onBoard (S : Int) (p : CleanPlayerV2) (hN : 1 ≤ p.boardSize) (hS : 1 ≤ S)
    (hr0 : 0 ≤ p.scanRow) (hr : p.scanRow < p.boardSize)
    (hc0 : 0 ≤ p.scanCol) (hc : p.scanCol < p.boardSize) (k : Nat) :
    0 ≤ (scanTimes S k p).scanRow ∧ (scanTimes S k p).scanRow < p.boardSize ∧
    0 ≤ (scanTimes S k p).scanCol ∧ (scanTimes S k p).scanCol < p.boardSize := by
  induction k with
  | zero => exact ⟨hr0, hr, hc0, hc⟩
  | succ k ih =>
    have hb := scanTimes_boardSize S k p
    have h := scan_onBoard S (scanTimes S k p) (by rw [hb]; exact hN) hS
      ih.1 (by rw [hb]; exact ih.2.1) ih.2.2.1 (by rw [hb]; exact ih.2.2.2)
    rw [hb] at h
    exact h

/-- Among the cursors of the first `N * N + 1` steps two are equal. -/
theorem scanTimes_repeat (S : Int) (p : CleanPlayerV2) (hN : 1 ≤ p.boardSize) (hS : 1 ≤ S)
    (hr0 : 0 ≤ p.scanRow) (hr : p.scanRow < p.boardSize)
    (hc0 : 0 ≤ p.scanCol) (hc : p.scanCol < p.boardSize) :
    ∃ a b : Nat, a < b ∧ b ≤ p.boardSize.toNat * p.boardSize.toNat ∧
      (scanTimes S a p).cursor = (scanTimes S b p).cursor := by
  let cells : Finset (Int × Int) :=
    Finset.Icc 0 (p.boardSize - 1) ×ˢ Finset.Icc 0 (p.boardSize - 1)
  have hcard : cells.card = p.boardSize.toNat * p.boardSize.toNat := by
    rw [Finset.card_product, Int.card_Icc]
    congr 1 <;> omega
  have hlt : cells.card < (Finset.range (p.boardSize.toNat * p.boardSize.toNat + 1)).card := by
    rw [Finset.card_range, hcard]
    omega
  have hmaps : ∀ k ∈ Finset.range (p.boardSize.toNat * p.boardSize.toNat + 1),
      (scanTimes S k p).cursor ∈ cells := by
    intro k _
    have h := scanTimes_onBoard S p hN hS hr0 hr hc0 hc k
    simp only [cells, cursor, Finset.mem_product, Finset.mem_Icc]
    omega
  obtain ⟨a, ha, b, hb, hne, heq⟩ := Finset.exists_ne_map_eq_of_card_lt_of_maps_to hlt hmaps
  rw [Finset.mem_range] at ha hb
  rcases Nat.lt_or_gt_of_ne hne with h | h
  · exact ⟨a, b, h, by omega, heq⟩
  · exact ⟨b, a, h, by omega, heq.symm⟩

/-- Every cursor reached by `scan` from an on-board cursor is reached within
the first `N * N - 1` advances. -/
theorem scanTimes_within_area (S : Int) (p : CleanPlayerV2) (hN : 1 ≤ p.boardSize)
    (hS : 1 ≤ S) (hr0 : 0 ≤ p.scanRow) (hr : p.scanRow < p.boardSize)
    (hc0 : 0 ≤ p.scanCol) (hc : p.scanCol < p.boardSize) (k : Nat) :
    ∃ j : Nat, j < p.boardSize.toNat * p.boardSize.toNat ∧
      (scanTimes S j p).cursor = (scanTimes S k p).cursor := by
  obtain ⟨a, b, hab, hb, heq⟩ := scanTimes_repeat S p hN hS hr0 hr hc0 hc
  induction k using Nat.strong_induction_on with
  | _ k ih =>
    by_cases hk : k < p.boardSize.toNat * p.boardSize.toNat
    · exact ⟨k, hk, rfl⟩
    · have hstep : (scanTimes S (k - b + a) p).cursor = (scanTimes S k p).cursor := by
        have e : k = (k - b) + b := by omega
        nth_rewrite 2 [e]
        rw [scanTimes_add, scanTimes_add]
        exact scanTimes_congr S _ _
          (by rw [scanTimes_boardSize, scanTimes_boardSize]) heq (k - b)
      obtain ⟨j, hj, hje⟩ := ih (k - b + a) (by omega)
      exact ⟨j, hj, hje.trans hstep⟩

/-- C13 (as amended): for every board size `N ≥ 1` and stride `S ≥ 1`, every
cursor position reached by repeatedly advancing `scan` from (0,0) is already
reached within the first `N * N` advances; and within the first
`ceil(N / S) * N` advances when `N` is a multiple of `S`. -/
theorem scan_coverage_bound (S : Int) (p : CleanPlayerV2)
    (hN : 1 ≤ p.boardSize) (hS : 1 ≤ S)
    (hrow : p.scanRow = 0) (hcol : p.scanCol = 0) (k : Nat) :
    (∃ j : Nat, (j : Int) < p.boardSize * p.boardSize ∧
      (scanTimes S j p).cursor = (scanTimes S k p).cursor) ∧
    (p.boardSize % S = 0 →
      ∃ j : Nat, (j : Int) < (p.boardSize + S - 1) / S * p.boardSize ∧
        (scanTimes S j p).cursor = (scanTimes S k p).cursor) := by
  constructor
  · obtain ⟨j, hj, hreach⟩ := scanTimes_within_area S p hN hS (by omega) (by omega)
      (by omega) (by omega) k
    refine ⟨j, ?_, hreach⟩
    have e : ((p.boardSize.toNat * p.boardSize.toNat : Nat) : Int)
        = p.boardSize * p.boardSize := by
      push_cast
      rw [Int.toNat_of_nonneg (by omega)]
    rw [← e]
    exact_mod_cast hj
  · intro hdvd
    obtain ⟨m, hm, hm1⟩ := aligned_factor p.boardSize S hN hS hdvd
    have hal := scanTimes_aligned S p hS hdvd (by omega) (by omega) (by omega) (by omega)
      (by rw [hrow, hcol]) k
    obtain ⟨j, hj, hreach⟩ := scanTimes_reaches S p m hS hm hm1 hrow hcol
      (scanTimes S k p).scanRow (scanTimes S k p).scanCol hal.1 hal.2.1 hal.2.2.1 hal.2.2.2.1
      hal.2.2.2.2
    refine ⟨j, ?_, hreach⟩
    rw [(aligned_counts p.boardSize S m hS hm).2]
    exact_mod_cast hj

/-- Witness for `scan_coverage_bound`: board size 10; with stride 3 the
position after 123 advances was already reached within the first 100, with
stride 2 within the first 50. -/
theorem scan_coverage_bound_witness :
    (∃ j : Nat, (j : Int) < (roundStart 10).boardSize * (roundStart 10).boardSize ∧
      (scanTimes 3 j (roundStart 10)).cursor = (scanTimes 3 123 (roundStart 10)).cursor) ∧
    (∃ j : Nat, (j : Int) < ((roundStart 10).boardSize + 2 - 1) / 2 * (roundStart 10).boardSize ∧
      (scanTimes 2 j (roundStart 10)).cursor = (scanTimes 2 123 (roundStart 10)).cursor) :=
  ⟨(scan_coverage_bound 3 (roundStart 10) (by decide) (by decide) rfl rfl 123).1,
    (scan_coverage_bound 2 (roundStart 10) (by decide) (by decide) rfl rfl 123).2 (by decide)⟩

end CleanPlayerV2
